import Mathlib

/-!
Verification of the WebScanner concurrent scanning engine against its
natural-language specification.

The definitions below are a shallow embedding of the Python sources in
`backend/app/` (fetcher.py, crawler.py, xss_tester.py, sqli_tester.py).
Pure helpers of the Python standard library that the code calls
(difflib.SequenceMatcher, urllib.parse, str.replace) are embedded from
their CPython semantics, since the repository's behaviour depends on them.
Machine floats of the source are modelled by exact rationals; byte-level
details of Unicode are modelled for the ASCII inputs the scanner handles.
-/

namespace WebScanner

/-! ### difflib.SequenceMatcher (CPython, `isjunk = None`, `autojunk = True`)

`xss_tester._similarity(a, b)` is `SequenceMatcher(None, a, b).ratio()`.
With `isjunk = None` the junk set `bjunk` is empty; the autojunk heuristic
only prunes "popular" elements (count > len(b)//100 + 1 when len(b) >= 200)
from the index `b2j`. -/

/-- Positions (ascending) of character `c` in `b`, as built by `__chain_b`. -/
def positionsOf (b : List Char) (c : Char) : List Nat :=
  (List.range b.length).filter (fun j => b.getD j ' ' = c)

/-- Number of occurrences of `c` in `b`. -/
def countChar (b : List Char) (c : Char) : Nat :=
  b.countP (fun x => x = c)

/-- Autojunk popularity test: `len(b) >= 200` and `count > len(b) // 100 + 1`. -/
def isPopular (b : List Char) (c : Char) : Bool :=
  decide (200 ≤ b.length) && decide (b.length / 100 + 1 < countChar b c)

/-- The `b2j` index after autojunk pruning: popular characters lose their
position lists entirely (they are deleted from the dict). -/
def b2jOf (b : List Char) (c : Char) : List Nat :=
  if isPopular b c then [] else positionsOf b c

/-- Accumulator of `find_longest_match`: the best block found so far. -/
structure FlmAcc where
  besti : Nat
  bestj : Nat
  bestsize : Nat
deriving Repr, DecidableEq

/-- Pointwise update of a `j2len` dictionary (total function, default 0). -/
def j2lenSet (f : Nat → Nat) (j v : Nat) : Nat → Nat :=
  fun x => if x = j then v else f x

/-- The lookup `j2len.get(j - 1, 0)` of CPython: for `j = 0` the key is `-1`,
which is absent, so the default 0 is returned. -/
def chainPrev (old : Nat → Nat) (j : Nat) : Nat :=
  if j = 0 then 0 else old (j - 1)

/-- Inner loop of `find_longest_match` over the candidate positions `js` of
`b2j[a[i]]`: `continue` below `blo`, `break` at `bhi`, chain-extend and
remember a strictly longer block. Returns the accumulator and `newj2len`. -/
def flmRow (i blo bhi : Nat) (old : Nat → Nat) :
    List Nat → FlmAcc → (Nat → Nat) → FlmAcc × (Nat → Nat)
  | [], acc, newj => (acc, newj)
  | j :: js, acc, newj =>
    if j < blo then flmRow i blo bhi old js acc newj
    else if bhi ≤ j then (acc, newj)
    else
      let k := chainPrev old j + 1
      let newj' := j2lenSet newj j k
      -- `i - k + 1` of Python stays nonnegative (k ≤ i + 1 for any chain),
      -- so it is written `i + 1 - k` to make ℕ subtraction exact.
      let acc' := if acc.bestsize < k then ⟨i + 1 - k, j + 1 - k, k⟩ else acc
      flmRow i blo bhi old js acc' newj'

/-- Outer loop of `find_longest_match` over the rows `alo`, ..., `ahi - 1`. -/
def flmRows (a : List Char) (b2jf : Char → List Nat) (blo bhi : Nat) :
    List Nat → FlmAcc → (Nat → Nat) → FlmAcc
  | [], acc, _ => acc
  | i :: is, acc, old =>
    let step := flmRow i blo bhi old (b2jf (a.getD i ' ')) acc (fun _ => 0)
    flmRows a b2jf blo bhi is step.1 step.2

/-- First extension loop: widen the block to the left over equal, non-junk
characters. Fuel-driven (fuel `besti` suffices; the Python loop decrements
`besti` once per iteration and stops at `alo`). -/
def extLeft (a b : List Char) (bjunk : Char → Bool) (alo blo : Nat) :
    Nat → Nat → Nat → Nat → Nat × Nat × Nat
  | 0, besti, bestj, bestsize => (besti, bestj, bestsize)
  | fuel + 1, besti, bestj, bestsize =>
    if alo < besti && blo < bestj && !bjunk (b.getD (bestj - 1) ' ') &&
        decide (a.getD (besti - 1) ' ' = b.getD (bestj - 1) ' ') then
      extLeft a b bjunk alo blo fuel (besti - 1) (bestj - 1) (bestsize + 1)
    else (besti, bestj, bestsize)

/-- Second extension loop: widen to the right over equal, non-junk
characters. Fuel-driven (fuel `ahi - (besti + bestsize)` suffices). -/
def extRight (a b : List Char) (bjunk : Char → Bool) (ahi bhi : Nat)
    (besti bestj : Nat) : Nat → Nat → Nat
  | 0, bestsize => bestsize
  | fuel + 1, bestsize =>
    if besti + bestsize < ahi && bestj + bestsize < bhi &&
        !bjunk (b.getD (bestj + bestsize) ' ') &&
        decide (a.getD (besti + bestsize) ' ' = b.getD (bestj + bestsize) ' ') then
      extRight a b bjunk ahi bhi besti bestj fuel (bestsize + 1)
    else bestsize

/-- Third extension loop (junk variant of `extLeft`): widen left over junk. -/
def extLeftJunk (a b : List Char) (bjunk : Char → Bool) (alo blo : Nat) :
    Nat → Nat → Nat → Nat → Nat × Nat × Nat
  | 0, besti, bestj, bestsize => (besti, bestj, bestsize)
  | fuel + 1, besti, bestj, bestsize =>
    if alo < besti && blo < bestj && bjunk (b.getD (bestj - 1) ' ') &&
        decide (a.getD (besti - 1) ' ' = b.getD (bestj - 1) ' ') then
      extLeftJunk a b bjunk alo blo fuel (besti - 1) (bestj - 1) (bestsize + 1)
    else (besti, bestj, bestsize)

/-- Fourth extension loop (junk variant of `extRight`): widen right over junk. -/
def extRightJunk (a b : List Char) (bjunk : Char → Bool) (ahi bhi : Nat)
    (besti bestj : Nat) : Nat → Nat → Nat
  | 0, bestsize => bestsize
  | fuel + 1, bestsize =>
    if besti + bestsize < ahi && bestj + bestsize < bhi &&
        bjunk (b.getD (bestj + bestsize) ' ') &&
        decide (a.getD (besti + bestsize) ' ' = b.getD (bestj + bestsize) ' ') then
      extRightJunk a b bjunk ahi bhi besti bestj fuel (bestsize + 1)
    else bestsize

/-- CPython `SequenceMatcher.find_longest_match(alo, ahi, blo, bhi)`:
the dynamic-programming scan followed by the four widening loops.
With `isjunk = None` the junk predicate is constantly false, so the third
and fourth loops never fire; they are kept for fidelity. -/
def findLongestMatch (a b : List Char) (b2jf : Char → List Nat)
    (bjunk : Char → Bool) (alo ahi blo bhi : Nat) : Nat × Nat × Nat :=
  let acc := flmRows a b2jf blo bhi (List.range' alo (ahi - alo)) ⟨alo, blo, 0⟩ (fun _ => 0)
  let s1 := extLeft a b bjunk alo blo acc.besti acc.besti acc.bestj acc.bestsize
  let s2 := extRight a b bjunk ahi bhi s1.1 s1.2.1 (ahi - (s1.1 + s1.2.2)) s1.2.2
  let s3 := extLeftJunk a b bjunk alo blo s1.1 s1.1 s1.2.1 s2
  let s4 := extRightJunk a b bjunk ahi bhi s3.1 s3.2.1 (ahi - (s3.1 + s3.2.2)) s3.2.2
  (s3.1, s3.2.1, s4)

/-- Total size of all matching blocks of `get_matching_blocks`, computed by
the same divide-and-conquer recursion (regions left and right of the longest
match). Fuel `len a + len b + 1` bounds the recursion depth, since each
recursive region strictly shrinks the combined size by the block size. -/
def matchingTotalGo (a b : List Char) (b2jf : Char → List Nat)
    (bjunk : Char → Bool) : Nat → Nat → Nat → Nat → Nat → Nat
  | 0, _, _, _, _ => 0
  | fuel + 1, alo, ahi, blo, bhi =>
    let m := findLongestMatch a b b2jf bjunk alo ahi blo bhi
    if m.2.2 = 0 then 0
    else
      matchingTotalGo a b b2jf bjunk fuel alo m.1 blo m.2.1 + m.2.2 +
        matchingTotalGo a b b2jf bjunk fuel (m.1 + m.2.2) ahi (m.2.1 + m.2.2) bhi

/-- Sum of the sizes of the matching blocks of `SequenceMatcher(None, a, b)`. -/
def matchingTotal (a b : List Char) : Nat :=
  matchingTotalGo a b (b2jOf b) (fun _ => false) (a.length + b.length + 1)
    0 a.length 0 b.length

/-- CPython `SequenceMatcher.ratio()`: `2 * M / (len(a) + len(b))`, and 1.0
when both sequences are empty (`_calculate_ratio`). Exact rational model of
the float computation. -/
def ratioQ (a b : List Char) : ℚ :=
  if a.length + b.length = 0 then 1
  else (2 * matchingTotal a b : ℚ) / ((a.length + b.length : Nat) : ℚ)

/-- The module-level `_similarity(a, b)` of `xss_tester.py`:
`SequenceMatcher(None, a, b).ratio()`. -/
def similarity (a b : String) : ℚ :=
  ratioQ a.data b.data

/-! ### `_normalize_html` of `xss_tester.py`

Six `re.sub` passes followed by `.strip()`. Each pass is embedded as a
left-to-right, non-overlapping scanner realizing the semantics of its
pattern (for the ASCII character classes of `re` on `str` input). -/

/-- Word characters of the regex `\b` boundary (ASCII: letters, digits, `_`). -/
def isWordChar (c : Char) : Bool :=
  c.isAlphanum || c = '_'

/-- Whitespace of the regex class `\s` (ASCII: space, tab, LF, CR, FF, VT). -/
def isSpaceChar (c : Char) : Bool :=
  c = ' ' || c = '\t' || c = '\n' || c = '\r' || c = '\x0b' || c = '\x0c'

/-- Case-insensitive test that the (lowercase) pattern `pat` starts `l`. -/
def ciStartsWith : List Char → List Char → Bool
  | [], _ => true
  | _ :: _, [] => false
  | p :: ps, c :: cs => (c.toLower = p) && ciStartsWith ps cs

/-- Drop everything up to and including the first occurrence of the
single character `ch` (the lazy `.*?>` step); `none` when absent. -/
def dropThroughChar (ch : Char) : List Char → Option (List Char)
  | [] => none
  | c :: cs => if c = ch then some cs else dropThroughChar ch cs

/-- Drop everything up to and including the first case-insensitive
occurrence of `pat` (the lazy `.*?</tag>` step); `none` when absent. -/
def dropThroughCi (pat : List Char) : List Char → Option (List Char)
  | [] => none
  | c :: cs =>
    if ciStartsWith pat (c :: cs) then some ((c :: cs).drop pat.length)
    else dropThroughCi pat cs

/-- Attempt to match `<tag.*?>.*?</tag>` (flags `re.S | re.I`) at the head of
`l`; returns the remainder after the match. The lazy quantifiers take the
first `>` and then the first closing tag after it, which is exactly the
leftmost-shortest match of the pattern. -/
def matchTagBlock (tag : List Char) (l : List Char) : Option (List Char) :=
  if ciStartsWith ('<' :: tag) l then
    match dropThroughChar '>' (l.drop (tag.length + 1)) with
    | none => none
    | some r1 => dropThroughCi ('<' :: '/' :: (tag ++ ['>'])) r1
  else none

/-- Scanner for `re.sub(r"<tag.*?>.*?</tag>", "", text, flags=re.S | re.I)`:
leftmost, non-overlapping removal. Fuel `l.length` suffices: every step
consumes at least one character. -/
def stripTagBlocks (tag : List Char) : Nat → List Char → List Char
  | 0, l => l
  | _, [] => []
  | fuel + 1, c :: cs =>
    match matchTagBlock tag (c :: cs) with
    | some rest => stripTagBlocks tag fuel rest
    | none => c :: stripTagBlocks tag fuel cs

/-- One fixed-shape pattern element: a literal character or `\d`. -/
inductive CPat
  | lit (c : Char)
  | digit
deriving Repr, DecidableEq

/-- Match a fixed-shape pattern at the head of a list; returns the rest. -/
def matchCPat : List CPat → List Char → Option (List Char)
  | [], l => some l
  | _ :: _, [] => none
  | .lit c :: ps, x :: xs => if x = c then matchCPat ps xs else none
  | .digit :: ps, x :: xs => if x.isDigit then matchCPat ps xs else none

/-- The timestamp pattern `20\d{2}-\d{2}-\d{2}T\d{2}:\d{2}:\d{2}` (between
two `\b` boundaries). -/
def tsPat : List CPat :=
  [.lit '2', .lit '0', .digit, .digit, .lit '-', .digit, .digit, .lit '-',
   .digit, .digit, .lit 'T', .digit, .digit, .lit ':', .digit, .digit,
   .lit ':', .digit, .digit]

/-- Boundary `\b` after a word character: next char absent or non-word. -/
def boundaryAfter : List Char → Bool
  | [] => true
  | c :: _ => !isWordChar c

/-- Scanner for `re.sub(r"\b20\d{2}-…\d{2}\b", "", text)`. `prevWord` tracks
whether the character before the scan position is a word character (for the
leading `\b`; the pattern starts with the word character `2`). After a
removal the previous character is the matched trailing digit, a word
character. -/
def subTimestamps : Nat → Bool → List Char → List Char
  | 0, _, l => l
  | _, _, [] => []
  | fuel + 1, prevWord, c :: cs =>
    if !prevWord then
      match matchCPat tsPat (c :: cs) with
      | some rest =>
        if boundaryAfter rest then subTimestamps fuel true rest
        else c :: subTimestamps fuel (isWordChar c) cs
      | none => c :: subTimestamps fuel (isWordChar c) cs
    else c :: subTimestamps fuel (isWordChar c) cs

/-- Scanner for `re.sub(r"\b[0-9]{6,}\b", "", text)`: a maximal digit run of
length ≥ 6 delimited by word boundaries is removed. A run that fails the
trailing boundary (or is too short) admits no match at any position inside
it, since interior starts sit between two digits. -/
def subLongDigits : Nat → Bool → List Char → List Char
  | 0, _, l => l
  | _, _, [] => []
  | fuel + 1, prevWord, c :: cs =>
    if !prevWord && c.isDigit then
      let run := (c :: cs).takeWhile (fun x => x.isDigit)
      let rest := (c :: cs).dropWhile (fun x => x.isDigit)
      if 6 ≤ run.length && boundaryAfter rest then
        subLongDigits fuel true rest
      else run ++ subLongDigits fuel true rest
    else c :: subLongDigits fuel (isWordChar c) cs

/-- Scanner for `re.sub(r"id=\x22[^\x22]{8,}\x22", "", text)` (case
sensitive, no boundaries): the greedy `[^"]{8,}` runs to the next quote. -/
def subIdAttr : Nat → List Char → List Char
  | 0, l => l
  | _, [] => []
  | fuel + 1, c :: cs =>
    if (c :: cs).take 4 = ['i', 'd', '=', '"'] then
      let afterLit := (c :: cs).drop 4
      let span := afterLit.takeWhile (fun x => x ≠ '"')
      match afterLit.dropWhile (fun x => x ≠ '"') with
      | '"' :: rest2 =>
        if 8 ≤ span.length then subIdAttr fuel rest2
        else c :: subIdAttr fuel cs
      | _ => c :: subIdAttr fuel cs
    else c :: subIdAttr fuel cs

/-- Lowercase letter or digit, the class `[a-z0-9]`. -/
def isLowerDigit (c : Char) : Bool :=
  (c.isLower && c.isAlpha) || c.isDigit

/-- Scanner for `re.sub(r"nonce-[a-z0-9]+", "", text)`: the literal
`nonce-` followed by a maximal non-empty `[a-z0-9]` run is removed. -/
def subNonce : Nat → List Char → List Char
  | 0, l => l
  | _, [] => []
  | fuel + 1, c :: cs =>
    if (c :: cs).take 6 = ['n', 'o', 'n', 'c', 'e', '-'] then
      let afterLit := (c :: cs).drop 6
      let run := afterLit.takeWhile isLowerDigit
      if run.length = 0 then c :: subNonce fuel cs
      else subNonce fuel (afterLit.dropWhile isLowerDigit)
    else c :: subNonce fuel cs

/-- Scanner for `re.sub(r"\s+", " ", text)`: every maximal whitespace run
becomes a single space. -/
def collapseWs : Nat → List Char → List Char
  | 0, l => l
  | _, [] => []
  | fuel + 1, c :: cs =>
    if isSpaceChar c then ' ' :: collapseWs fuel (cs.dropWhile isSpaceChar)
    else c :: collapseWs fuel cs

/-- Python `str.strip()`: drop leading and trailing whitespace. -/
def stripEnds (l : List Char) : List Char :=
  ((l.dropWhile isSpaceChar).reverse.dropWhile isSpaceChar).reverse

/-- The `_normalize_html(text)` of `xss_tester.py`: empty-guard, the six
substitution passes in source order, then `strip`. -/
def normalize_html (text : String) : String :=
  if text.data = [] then "" else
  let t := text.data
  let t := stripTagBlocks ['s', 'c', 'r', 'i', 'p', 't'] t.length t
  let t := stripTagBlocks ['s', 't', 'y', 'l', 'e'] t.length t
  let t := subTimestamps t.length false t
  let t := subLongDigits t.length false t
  let t := subIdAttr t.length t
  let t := subNonce t.length t
  let t := collapseWs t.length t
  String.mk (stripEnds t)

/-! ### String helpers (Python `in`, `str.replace`, `str.split`) -/

/-- Exact prefix test on character lists. -/
def listStartsWith : List Char → List Char → Bool
  | [], _ => true
  | _ :: _, [] => false
  | p :: ps, c :: cs => (c = p) && listStartsWith ps cs

/-- Python substring containment `pat in hay`. -/
def strContainsL (pat : List Char) : List Char → Bool
  | [] => listStartsWith pat []
  | c :: cs => listStartsWith pat (c :: cs) || strContainsL pat cs

/-- Python `pat in hay` on strings. -/
def strContains (hay pat : String) : Bool :=
  strContainsL pat.data hay.data

/-- Python `str.replace(old, new)` for non-empty `old`: leftmost,
non-overlapping. Fuel `l.length` suffices. -/
def strReplaceL (old new : List Char) : Nat → List Char → List Char
  | 0, l => l
  | _, [] => []
  | fuel + 1, c :: cs =>
    if listStartsWith old (c :: cs) && old.length ≠ 0 then
      new ++ strReplaceL old new fuel ((c :: cs).drop old.length)
    else c :: strReplaceL old new fuel cs

/-- Python `s.replace(old, new)` on strings (non-empty `old`). -/
def strReplace (s old new : String) : String :=
  String.mk (strReplaceL old.data new.data s.data.length s.data)

/-- Split at the first occurrence of `sep`; `none` when absent. -/
def splitFirst (sep : Char) : List Char → Option (List Char × List Char)
  | [] => none
  | c :: cs =>
    if c = sep then some ([], cs)
    else match splitFirst sep cs with
      | none => none
      | some (l, r) => some (c :: l, r)

/-- Python `str.split(sep)` for a single-character separator. -/
def splitAll (sep : Char) : Nat → List Char → List (List Char)
  | 0, l => [l]
  | fuel + 1, l =>
    match splitFirst sep l with
    | none => [l]
    | some (a, rest) => a :: splitAll sep fuel rest

/-! ### urllib.parse (CPython model, ASCII inputs)

The scanner manipulates URLs exclusively through `urlparse`, `urlunparse`,
`urljoin`, `parse_qs`, `urlencode` and `quote_plus`. These are embedded
from the CPython implementations; percent-encoding is modelled bytewise
for code points below 256 (all inputs the scanner produces are ASCII). -/

/-- Result shape of `urllib.parse.urlparse`. -/
structure UrlParts where
  scheme : String
  netloc : String
  path : String
  params : String
  query : String
  fragment : String
deriving Repr, DecidableEq

/-- Valid scheme characters (letters, digits, `+`, `-`, `.`). -/
def isSchemeChar (c : Char) : Bool :=
  c.isAlpha || c.isDigit || c = '+' || c = '-' || c = '.'

/-- Scheme detection of `urlsplit`: a `:` at position > 0 preceded only by
scheme characters starting with a letter. Returns (lowercased scheme, rest);
on failure the scheme is the supplied default. -/
def splitScheme (url : List Char) (default : String) : String × List Char :=
  match splitFirst ':' url with
  | none => (default, url)
  | some (before, after) =>
    if before.length > 0 && (match before with
        | c :: _ => c.isAlpha
        | [] => false) && before.all isSchemeChar then
      (String.mk (before.map Char.toLower), after)
    else (default, url)

/-- Netloc split of `urlsplit`: after a leading `//`, the netloc runs to the
first `/`, `?` or `#`. -/
def isNetlocEnd (c : Char) : Bool :=
  c = '/' || c = '?' || c = '#'

/-- CPython `urlsplit(url, scheme='')` (ASCII, `allow_fragments=True`),
with the params component left empty (filled in by `urlparseD`). -/
def urlsplitD (url : String) (default : String) : UrlParts :=
  let (scheme, rest) := splitScheme url.data default
  let (netloc, rest) :=
    if listStartsWith ['/', '/'] rest then
      let r2 := rest.drop 2
      (String.mk (r2.takeWhile (fun c => !isNetlocEnd c)),
       r2.dropWhile (fun c => !isNetlocEnd c))
    else ("", rest)
  let (rest, fragment) :=
    match splitFirst '#' rest with
    | none => (rest, "")
    | some (a, b) => (a, String.mk b)
  let (path, query) :=
    match splitFirst '?' rest with
    | none => (String.mk rest, "")
    | some (a, b) => (String.mk a, String.mk b)
  ⟨scheme, netloc, path, "", query, fragment⟩

/-- CPython `_splitparams`: split `;params` off the last path segment. -/
def splitParams (url : List Char) : List Char × List Char :=
  let tail :=
    if url.contains '/' then
      (url.reverse.takeWhile (fun c => c ≠ '/')).reverse
    else url
  match splitFirst ';' tail with
  | none => (url, [])
  | some (a, b) => (url.take (url.length - tail.length) ++ a, b)

/-- CPython `urlparse(url, scheme=default)`. -/
def urlparseD (url : String) (default : String) : UrlParts :=
  let u := urlsplitD url default
  if u.path.data.contains ';' then
    let (p, par) := splitParams u.path.data
    { u with path := String.mk p, params := String.mk par }
  else u

/-- CPython `urlparse(url)`. -/
def urlparse (url : String) : UrlParts :=
  urlparseD url ""

/-- CPython `urlunsplit`. -/
def urlunsplit (scheme netloc url query fragment : String) : String :=
  let url :=
    if netloc ≠ "" || listStartsWith ['/', '/'] url.data then
      let url := if url ≠ "" && !listStartsWith ['/'] url.data then "/" ++ url else url
      "//" ++ netloc ++ url
    else url
  let url := if scheme ≠ "" then scheme ++ ":" ++ url else url
  let url := if query ≠ "" then url ++ "?" ++ query else url
  if fragment ≠ "" then url ++ "#" ++ fragment else url

/-- CPython `urlunparse`. -/
def urlunparse (u : UrlParts) : String :=
  let url := if u.params ≠ "" then u.path ++ ";" ++ u.params else u.path
  urlunsplit u.scheme u.netloc url u.query u.fragment

/-- Schemes of `urllib.parse.uses_relative`. -/
def usesRelative : List String :=
  ["", "ftp", "http", "gopher", "nntp", "imap", "wais", "file", "https",
   "shttp", "mms", "prospero", "rtsp", "rtspu", "sftp", "svn", "svn+ssh",
   "ws", "wss"]

/-- Schemes of `urllib.parse.uses_netloc`. -/
def usesNetloc : List String :=
  ["", "ftp", "http", "gopher", "nntp", "telnet", "imap", "wais", "file",
   "mms", "https", "shttp", "snews", "prospero", "rtsp", "rtspu", "rsync",
   "svn", "svn+ssh", "sftp", "nfs", "git", "git+ssh", "ws", "wss",
   "itms-services"]

/-- Middle-segment cleanup of `urljoin`:
`segments[1:-1] = filter(None, segments[1:-1])`. -/
def filterMiddle (segs : List (List Char)) : List (List Char) :=
  match segs with
  | [] => []
  | [s] => [s]
  | first :: rest =>
    let last := rest.getLastD []
    let mid := rest.dropLast
    first :: (mid.filter (fun s => s ≠ [])) ++ [last]

/-- Dot-segment resolution loop of `urljoin` (`..` pops, `.` is skipped). -/
def resolveSegs : List (List Char) → List (List Char) → List (List Char)
  | acc, [] => acc
  | acc, s :: rest =>
    if s = ['.', '.'] then resolveSegs acc.dropLast rest
    else if s = ['.'] then resolveSegs acc rest
    else resolveSegs (acc ++ [s]) rest

/-- Join segments with `/`. -/
def joinSegs (segs : List (List Char)) : List Char :=
  match segs with
  | [] => []
  | [s] => s
  | s :: rest => s ++ '/' :: joinSegs rest

/-- CPython `urljoin(base, url)`. -/
def urljoin (base url : String) : String :=
  if base = "" then url
  else if url = "" then base
  else
    let b := urlparse base
    let u := urlparseD url b.scheme
    if u.scheme ≠ b.scheme || ¬ usesRelative.contains u.scheme then url
    else
      let netlocCheck := usesNetloc.contains u.scheme
      if netlocCheck && u.netloc ≠ "" then urlunparse u
      else
        let netloc := if netlocCheck then b.netloc else u.netloc
        if u.path = "" && u.params = "" then
          let query := if u.query = "" then b.query else u.query
          urlunparse ⟨u.scheme, netloc, b.path, b.params, query, u.fragment⟩
        else
          let baseParts :=
            let bp := splitAll '/' b.path.data.length b.path.data
            if bp.getLastD [] ≠ [] then bp.dropLast else bp
          let segments :=
            if listStartsWith ['/'] u.path.data then
              splitAll '/' u.path.data.length u.path.data
            else
              filterMiddle (baseParts ++ splitAll '/' u.path.data.length u.path.data)
          let resolved := resolveSegs [] segments
          let resolved :=
            if segments.getLastD [] = ['.'] || segments.getLastD [] = ['.', '.'] then
              resolved ++ [[]]
            else resolved
          let path := joinSegs resolved
          let path := if path = [] then ['/'] else path
          urlunparse ⟨u.scheme, netloc, String.mk path, u.params, u.query, u.fragment⟩

/-! ### Percent-encoding (`quote_plus` / `unquote_plus`) and query strings -/

/-- Characters never quoted (`_ALWAYS_SAFE`): letters, digits, `_.-~`. -/
def isAlwaysSafe (c : Char) : Bool :=
  (c.isAlpha && c.toNat < 128) || c.isDigit || c = '_' || c = '.' || c = '-' || c = '~'

/-- Uppercase hex digit for a value below 16. -/
def hexDigit (n : Nat) : Char :=
  if n < 10 then Char.ofNat ('0'.toNat + n) else Char.ofNat ('A'.toNat + (n - 10))

/-- CPython `quote_plus(s, safe='')` for code points below 256: safe
characters pass, space becomes `+`, the rest becomes `%XX`. -/
def quotePlus (s : String) : String :=
  String.mk (s.data.flatMap (fun c =>
    if isAlwaysSafe c then [c]
    else if c = ' ' then ['+']
    else ['%', hexDigit (c.toNat / 16 % 16), hexDigit (c.toNat % 16)]))

/-- Hex value of a character, if it is a hex digit. -/
def hexVal (c : Char) : Option Nat :=
  let n := c.toNat
  if 48 ≤ n ∧ n ≤ 57 then some (n - 48)
  else if 97 ≤ n ∧ n ≤ 102 then some (n - 97 + 10)
  else if 65 ≤ n ∧ n ≤ 70 then some (n - 65 + 10)
  else none

/-- CPython `unquote(s)` for single-byte sequences: `%XX` decodes, malformed
escapes stay literal. -/
def unquoteL : Nat → List Char → List Char
  | 0, l => l
  | _, [] => []
  | fuel + 1, '%' :: h1 :: h2 :: rest =>
    match hexVal h1, hexVal h2 with
    | some a, some b => Char.ofNat (a * 16 + b) :: unquoteL fuel rest
    | _, _ => '%' :: unquoteL fuel (h1 :: h2 :: rest)
  | fuel + 1, c :: cs => c :: unquoteL fuel cs

/-- CPython `unquote_plus(s)`: `+` to space, then percent-decoding. -/
def unquotePlus (s : String) : String :=
  let t := s.data.map (fun c => if c = '+' then ' ' else c)
  String.mk (unquoteL t.length t)

/-- CPython `parse_qsl(qs, keep_blank_values=True)`. -/
def parseQsl (qs : String) : List (String × String) :=
  (splitAll '&' qs.data.length qs.data).filterMap (fun nv =>
    if nv = [] then none
    else match splitFirst '=' nv with
      | some (n, v) => some (unquotePlus (String.mk n), unquotePlus (String.mk v))
      | none => some (unquotePlus (String.mk nv), ""))

/-- Insert one `(key, value)` pair into the ordered grouping dict, as the
`parse_qs` loop does: append to an existing key's list, else a new key. -/
def addPair (acc : List (String × List String)) (k v : String) :
    List (String × List String) :=
  if acc.any (fun p => p.1 = k) then
    acc.map (fun p => if p.1 = k then (p.1, p.2 ++ [v]) else p)
  else acc ++ [(k, [v])]

/-- CPython `parse_qs(qs, keep_blank_values=True)` as an ordered
association list (keys in first-occurrence order). -/
def parse_qs (qs : String) : List (String × List String) :=
  (parseQsl qs).foldl (fun acc p => addPair acc p.1 p.2) []

/-- CPython `urlencode(d)` over string pairs (no `doseq`):
`quote_plus(k)=quote_plus(v)` joined by `&`. -/
def urlencode (d : List (String × String)) : String :=
  String.intercalate "&" (d.map (fun p => quotePlus p.1 ++ "=" ++ quotePlus p.2))

/-- CPython `urlencode(d, doseq=True)` over list-valued pairs: one `k=v` per
element of each value list. -/
def urlencodeSeq (d : List (String × List String)) : String :=
  String.intercalate "&"
    (d.flatMap (fun p => p.2.map (fun v => quotePlus p.1 ++ "=" ++ quotePlus v)))

/-! ### Python dict operations (insertion-ordered association lists) -/

/-- Lookup `d.get(k)`. -/
def dictGet? : List (String × String) → String → Option String
  | [], _ => none
  | p :: rest, k => if p.1 = k then some p.2 else dictGet? rest k

/-- Lookup `d.get(k, dflt)`. -/
def dictGetD (d : List (String × String)) (k dflt : String) : String :=
  (dictGet? d k).getD dflt

/-- Assignment `d[k] = v`: replace in place (keys are unique in a Python
dict, so the first occurrence is the occurrence), or append a new key. -/
def dictSet : List (String × String) → String → String → List (String × String)
  | [], k, v => [(k, v)]
  | p :: rest, k, v => if p.1 = k then (k, v) :: rest else p :: dictSet rest k v

/-- Python `d.setdefault(k, v)`: insert only when the key is absent. -/
def dictSetdefault : List (String × String) → String → String →
    List (String × String)
  | [], k, v => [(k, v)]
  | p :: rest, k, v =>
    if p.1 = k then p :: rest else p :: dictSetdefault rest k v

/-- Python `{**a, **b}`: keys of `a` first, `b` wins on collision. -/
def dictMerge (a b : List (String × String)) : List (String × String) :=
  b.foldl (fun acc p => dictSet acc p.1 p.2) a

/-! ### `Fetcher` of `fetcher.py`

The aiohttp `RetryClient` is an external collaborator, abstracted as an
oracle from the outgoing headers and cookies to either a response or a
raised exception (with the optional `status` attribute aiohttp errors
carry). `_request` itself installs no exception handler. -/

/-- Outcome of one `RetryClient.get/post` call: a response, or a raised
client exception. -/
inductive ClientOutcome
  | resp (status : Nat) (body : String)
  | exn (msg : String) (status : Option Nat)
deriving Repr, DecidableEq

/-- Configuration of a `Fetcher` (constructor state after `__init__`). -/
structure Fetcher where
  user_agent : String
  auth_token : Option String
  cookies : List (String × String)
  polite_delay : ℚ
deriving Repr, DecidableEq

/-- Constructor default `user_agent or "webscanner/1.0"` (Python `or`:
`None` and the empty string both fall back). -/
def Fetcher.mkUserAgent (ua : Option String) : String :=
  match ua with
  | none => "webscanner/1.0"
  | some s => if s = "" then "webscanner/1.0" else s

/-- Header preparation of `Fetcher._request`: `setdefault` the user agent,
then unconditionally overwrite `Authorization` when a token is configured. -/
def Fetcher.buildHeaders (f : Fetcher) (caller : List (String × String)) :
    List (String × String) :=
  let h := dictSetdefault caller "User-Agent" f.user_agent
  match f.auth_token with
  | some t => dictSet h "Authorization" ("Bearer " ++ t)
  | none => h

/-- Cookie preparation of `Fetcher._request`: `{**self._cookies, **caller}`
when the caller passed cookies, else the configured jar. -/
def Fetcher.buildCookies (f : Fetcher) (caller : Option (List (String × String))) :
    List (String × String) :=
  match caller with
  | some c => dictMerge f.cookies c
  | none => f.cookies

/-- `Fetcher._request`: merge headers and cookies, then await the client.
There is no `try`/`except` here, so a client exception propagates to the
caller; the error side of the result is a raised exception, not a value
the caller receives as data. -/
def Fetcher.request (f : Fetcher)
    (client : List (String × String) → List (String × String) → ClientOutcome)
    (callerHeaders : List (String × String))
    (callerCookies : Option (List (String × String))) :
    Except (String × Option Nat) (Nat × String) :=
  let headers := f.buildHeaders callerHeaders
  let cookies := f.buildCookies callerCookies
  match client headers cookies with
  | .resp s b => .ok (s, b)
  | .exn m st => .error (m, st)

/-- `Fetcher.get` delegates to `_request("get", ...)`. -/
def Fetcher.get (f : Fetcher)
    (client : List (String × String) → List (String × String) → ClientOutcome)
    (callerHeaders : List (String × String))
    (callerCookies : Option (List (String × String))) :
    Except (String × Option Nat) (Nat × String) :=
  f.request client callerHeaders callerCookies

/-- `Fetcher._apply_rate_limit` in an exact-clock sequential model: entered
at time `now` with stored timestamp `last`, it sleeps `delay - (now - last)`
when that is positive and stores the wake-up time. Returns the dispatch time
(when the request is actually issued) and the new stored timestamp; the
stored state is a single global timestamp — the host is not an input. -/
def applyRateLimit (delay last now : ℚ) : ℚ × ℚ :=
  let elapsed := now - last
  if elapsed < delay then (now + (delay - elapsed), now + (delay - elapsed))
  else (now, now)

/-- Sequential run of `_request` calls through one `Fetcher`: each request
carries its destination host and the time its task reaches the rate
limiter; the single `_last_request_time` is threaded through. Returns the
dispatch times in order. -/
def runRequests (delay : ℚ) : ℚ → List (String × ℚ) → List ℚ
  | _, [] => []
  | last, (_, now) :: rest =>
    let step := applyRateLimit delay last now
    step.1 :: runRequests delay step.2 rest

/-! ### `XSSTester` of `xss_tester.py` -/

/-- The module constant `MARKER_TMPL = "__WS__{id}__"`. -/
def MARKER_TMPL : String := "__WS__{id}__"

/-- The module constant `DEFAULT_XSS_PAYLOADS` (first entry is the
marker-only template, `{MARK}` substituted later). -/
def DEFAULT_XSS_PAYLOADS : List String :=
  [strReplace MARKER_TMPL "{id}" "{MARK}",
   "<script>alert(1)</script>",
   "\"'><img src=x onerror=alert(1)>",
   "';alert(1);//",
   "<svg/onload=alert(1)>",
   "\"><svg/onload=alert(1)>"]

/-- Result of `XSSTester._fetch_text`: the ok-dict with status and body, or
the caught-exception dict with the error string and the exception's
optional `status` attribute. `_fetch_text` never raises. -/
inductive FetchOut
  | ok (status : Option Nat) (text : String)
  | err (error : String) (status : Option Nat)
deriving Repr, DecidableEq

/-- `XSSTester._fetch_text` wrapping a fetcher call: a response becomes the
ok-dict, a raised exception is caught and becomes the error dict. -/
def fetch_text (outcome : Except (String × Option Nat) (Nat × String)) : FetchOut :=
  match outcome with
  | .ok (s, t) => .ok (some s) t
  | .error (e, st) => .err e st

/-- Truth of `got.get("ok")`. -/
def FetchOut.okQ : FetchOut → Bool
  | .ok _ _ => true
  | .err _ _ => false

/-- The body `got.get("text", "")`. -/
def FetchOut.textD : FetchOut → String
  | .ok _ t => t
  | .err _ _ => ""

/-- The status `got.get("status")`. -/
def FetchOut.statusD : FetchOut → Option Nat
  | .ok s _ => s
  | .err _ s => s

/-- One finding dict appended by `test_reflected_get`/`test_reflected_post`.
The similarity key is present on marker/differential records and absent on
error records; the error key is present only on error records. -/
structure XssResult where
  url : String
  param : String
  payload : String
  marker : String
  reflected : Bool
  suspected : Bool
  status : Option Nat
  similarity : Option ℚ
  error : Option String
deriving Repr, DecidableEq

/-- Outcome of the per-payload retry loop: the appended finding dicts and
the number of probe fetches performed for this payload. -/
structure PayloadProbe where
  results : List XssResult
  fetches : Nat
deriving Repr, DecidableEq

/-- The similarity computed for one probe attempt:
`_similarity(_normalize_html(base_text), _normalize_html(text))`. -/
def attemptSim (baseText text : String) : ℚ :=
  similarity (normalize_html baseText) (normalize_html text)

/-- The retry loop body of `test_reflected_get` (lines also shared verbatim
by `test_reflected_post`) for one payload: `for i in range(retries + 1)`
with its `for`/`else` and the trailing `if error` append. `env i` is the
outcome of `_fetch_text` on attempt `i`; `remaining` counts the iterations
left, `i` the next attempt index. -/
def probeLoop (target param payload marker baseText : String) (T : ℚ)
    (env : Nat → FetchOut) :
    Nat → Nat → ℚ → String → Option Nat → PayloadProbe
  | 0, _, bestSim, bestText, lastStatus =>
    -- `for` exhausted without `break`: the `else` clause classifies from the
    -- accumulated evidence; `error` is necessarily unset here.
    let reflected := strContains bestText marker || decide (bestSim < T)
    let suspected := !reflected && decide (bestSim < T + 1 / 20)
    ⟨[⟨target, param, payload, marker, reflected, suspected, lastStatus,
        some bestSim, none⟩], 0⟩
  | remaining + 1, i, bestSim, bestText, _lastStatus =>
    match env i with
    | .err e st =>
      -- first failed attempt: record error and status, `break`; the `else`
      -- clause is skipped and the `if error` append fires.
      ⟨[⟨target, param, payload, marker, false, false, st, none, some e⟩], 1⟩
    | .ok st text =>
      let sim := attemptSim baseText text
      let bestSim' := if sim < bestSim then sim else bestSim
      let bestText' := if sim < bestSim then text else bestText
      if strContains text marker then
        -- verbatim marker: definitive reflected finding, `break`.
        ⟨[⟨target, param, payload, marker, true, false, st, some sim, none⟩], 1⟩
      else
        let rec0 := probeLoop target param payload marker baseText T env
          remaining (i + 1) bestSim' bestText' st
        ⟨rec0.results, rec0.fetches + 1⟩

/-- The per-payload probe of the XSS testers: `retries + 1` attempts,
initial accumulator `best_sim = 1.0`, `best_text = ""`,
`last_status = None`. -/
def probePayload (target param payload marker baseText : String) (T : ℚ)
    (retries : Nat) (env : Nat → FetchOut) : PayloadProbe :=
  probeLoop target param payload marker baseText T env (retries + 1) 0 1 "" none

/-- Probe URL construction of `test_reflected_get` for one payload:
`qs[param] = [payload]`, `urlencode(qs, doseq=True)`, `urlunparse`. -/
def xssTarget (parsed : UrlParts) (qs : List (String × List String))
    (param payload : String) : String :=
  let qs' :=
    if qs.any (fun p => p.1 = param) then
      qs.map (fun p => if p.1 = param then (param, [payload]) else p)
    else qs ++ [(param, [payload])]
  urlunparse ⟨parsed.scheme, parsed.netloc, parsed.path, parsed.params,
    urlencodeSeq qs', parsed.fragment⟩

/-- `XSSTester.test_reflected_get(url, param)`: baseline fetch, then the
per-payload loop over the payload templates with fresh markers supplied by
`markers` (the `uuid4` stream) and fetch outcomes supplied by `env`
(payload index, attempt index). Returns the concatenated finding dicts. -/
def test_reflected_get (payloads : List String) (markers : Nat → String)
    (T : ℚ) (retries : Nat) (url : String)
    (param : String) (baseOutcome : FetchOut)
    (env : Nat → Nat → FetchOut) : List XssResult :=
  let parsed := urlparse url
  if parsed.query = "" then []
  else
    let baseText := if baseOutcome.okQ then baseOutcome.textD else ""
    let qs := parse_qs parsed.query
    (List.range payloads.length).flatMap (fun pi =>
      let marker := markers pi
      let payload := strReplace (payloads.getD pi "") "{MARK}" marker
      let target := xssTarget parsed qs param payload
      (probePayload target param payload marker baseText T retries (env pi)).results)

/-! ### `SQLiTester.basic_diff` of `sqli_tester.py` -/

/-- The module constant `BASIC_PAYLOADS`. -/
def BASIC_PAYLOADS : List String :=
  ["'", "\"", " OR 1=1 -- "]

/-- Outcome of one `fetcher.get` + `resp.text()` in `basic_diff`: a
response, or a raised exception (caught and logged by the loop). -/
inductive ProbeOut
  | resp (status : Nat) (text : String)
  | exn (msg : String)
deriving Repr, DecidableEq

/-- One suspected-injection dict appended by `basic_diff`. -/
structure SqliRecord where
  param : String
  payload : String
  url : String
  suspected : Bool
  status : Nat
deriving Repr, DecidableEq

/-- The flag condition of `basic_diff`:
`resp.status >= 500 or len(text) != len(base_text)`. -/
def sqliFlag (baseText : String) (status : Nat) (text : String) : Bool :=
  decide (500 ≤ status) || decide (text.length ≠ baseText.length)

/-- Probe URL construction of `basic_diff` for one (param, payload):
`mod = {k: v[0] for k, v in qs.items()}`, `mod[p] = mod.get(p, "") + payload`,
`urlencode(mod)`, `urlunparse`. The payload is appended to the parameter's
current (first) value. -/
def sqliTarget (parsed : UrlParts) (qs : List (String × List String))
    (p payload : String) : String :=
  let mod0 := qs.map (fun kv => (kv.1, kv.2.getD 0 ""))
  let mod := dictSet mod0 p (dictGetD mod0 p "" ++ payload)
  urlunparse ⟨parsed.scheme, parsed.netloc, parsed.path, parsed.params,
    urlencode mod, parsed.fragment⟩

/-- The inner payload loop of `basic_diff` for one parameter: try payloads
in order; an exception is swallowed and the next payload tried; a response
meeting the flag condition appends the suspected record and `break`s.
Returns the appended records and the fetched probe URLs in order. -/
def basicDiffParam (env : String → ProbeOut) (parsed : UrlParts)
    (qs : List (String × List String)) (baseText : String) (p : String) :
    List String → List SqliRecord × List String
  | [] => ([], [])
  | payload :: rest =>
    let target := sqliTarget parsed qs p payload
    match env target with
    | .exn _ =>
      let next := basicDiffParam env parsed qs baseText p rest
      (next.1, target :: next.2)
    | .resp st text =>
      if sqliFlag baseText st text then
        ([⟨p, payload, target, true, st⟩], [target])
      else
        let next := basicDiffParam env parsed qs baseText p rest
        (next.1, target :: next.2)

/-- `SQLiTester.basic_diff(url)`: parse the query, fetch the baseline (a
failed baseline leaves `base_text = ""`), then run the payload loop for
every parameter in order and concatenate the appended records. -/
def basic_diff (env : String → ProbeOut) (url : String) : List SqliRecord :=
  let parsed := urlparse url
  let qs := parse_qs parsed.query
  if qs = [] then []
  else
    let baseText :=
      match env url with
      | .resp _ t => t
      | .exn _ => ""
    qs.flatMap (fun kv =>
      (basicDiffParam env parsed qs baseText kv.1 BASIC_PAYLOADS).1)

/-! ### `Crawler` of `crawler.py`

BeautifulSoup is an external collaborator, abstracted as an extraction
oracle from (html, current URL) to raw hrefs and raw forms. The crawl loop
is modelled sequentially (one worker step at a time); the `fetched` trace
instruments which URLs were actually fetched. -/

/-- The `_normalize(url)` of `crawler.py`; `base` is `self.base` (the start
URL with trailing slashes stripped). A protocol-relative link takes the
base scheme; a root-relative link joins the base; a scheme-less link joins
`base + "/"`; anything else is returned unchanged. The current page is not
an input. -/
def Crawler.normalize (base url : String) : String :=
  if listStartsWith ['/', '/'] url.data then
    (urlparse base).scheme ++ ":" ++ url
  else if listStartsWith ['/'] url.data then
    urljoin base url
  else if (urlparse url).scheme = "" then
    urljoin (base ++ "/") url
  else url

/-- The `_same_domain(url)` of `crawler.py`: equal netloc, or no netloc. -/
def Crawler.sameDomain (base url : String) : Bool :=
  (urlparse url).netloc = (urlparse base).netloc || (urlparse url).netloc = ""

/-- A raw form as extracted by the soup oracle: optional `action`
attribute, method, and named inputs with their default values. -/
structure RawForm where
  action : Option String
  method : String
  inputs : List (String × String)
deriving Repr, DecidableEq

/-- The form tuple appended by `_parse`:
`(normalized action, {method, inputs})`. -/
structure FoundForm where
  url : String
  method : String
  inputs : List (String × String)
deriving Repr, DecidableEq

/-- Crawl state: the `seen` set (insertion order), the queue, the
accumulated forms, and the instrumentation trace of fetched URLs. -/
structure CrawlState where
  seen : List String
  queue : List String
  forms : List FoundForm
  fetched : List String
deriving Repr, DecidableEq

/-- One worker iteration of `Crawler.crawl` on the queue head: budget check,
visited check, fetch (a failure is swallowed, the URL still enters `seen`),
parse, enqueue the same-domain unseen links. -/
def crawlStep (base : String) (fetch : String → Except String String)
    (extract : String → String → List String × List RawForm)
    (maxPages : Nat) (st : CrawlState) : CrawlState :=
  match st.queue with
  | [] => st
  | url :: rest =>
    if maxPages ≤ st.seen.length then { st with queue := rest }
    else if st.seen.contains url then { st with queue := rest }
    else
      match fetch url with
      | .error _ =>
        { st with queue := rest, seen := st.seen ++ [url],
                  fetched := st.fetched ++ [url] }
      | .ok html =>
        let raw := extract html url
        let links := raw.1.map (Crawler.normalize base)
        let forms := raw.2.map (fun f =>
          ⟨Crawler.normalize base (f.action.getD url), f.method, f.inputs⟩)
        let newLinks := links.filter (fun l =>
          Crawler.sameDomain base l && !(st.seen ++ [url]).contains l)
        { seen := st.seen ++ [url], queue := rest ++ newLinks,
          forms := st.forms ++ forms, fetched := st.fetched ++ [url] }

/-- Iterate worker steps until the queue drains (or fuel runs out). -/
def crawlRun (base : String) (fetch : String → Except String String)
    (extract : String → String → List String × List RawForm)
    (maxPages : Nat) : Nat → CrawlState → CrawlState
  | 0, st => st
  | fuel + 1, st =>
    match st.queue with
    | [] => st
    | _ => crawlRun base fetch extract maxPages fuel
        (crawlStep base fetch extract maxPages st)

/-! ### Definitions used only by the verification -/

/-- Whether one probe outcome triggers the `basic_diff` flag condition
(an exception never flags; a response flags by status/length). -/
def sqliAttemptFlagged (baseText : String) : ProbeOut → Bool
  | .exn _ => false
  | .resp st text => sqliFlag baseText st text

/-- Chain values of the `find_longest_match` scan on `a = b = s`:
`chainFun s i j` is the value the row-`i` dictionary assigns to column `j`
(0 when `j` is not indexed for the row's character). -/
def chainFun (s : List Char) : Nat → Nat → Nat
  | 0, j => if j ∈ b2jOf s (s.getD 0 ' ') then 1 else 0
  | i + 1, j =>
    if j ∈ b2jOf s (s.getD (i + 1) ' ') then
      (if j = 0 then 0 else chainFun s i (j - 1)) + 1
    else 0

/-- Diagonal chain value at row `i`. -/
def dvOf (s : List Char) (i : Nat) : Nat :=
  chainFun s i i

/-- Maximum diagonal chain value over the rows below `i`. -/
def dvMax (s : List Char) : Nat → Nat
  | 0 => 0
  | i + 1 => max (dvMax s i) (dvOf s i)

/-- The dictionary entering row `i` (constantly 0 before the first row). -/
def prevChain (s : List Char) (i : Nat) : Nat → Nat :=
  match i with
  | 0 => fun _ => 0
  | i + 1 => chainFun s i

/-! ## Verification

Helper lemmas first, then one theorem per claim (with witnesses and
counterexamples where required). -/

/-! ### Association-list (Python dict) lemmas -/

theorem dictGet?_dictSet_self (d : List (String × String)) (k v : String) :
    dictGet? (dictSet d k v) k = some v := by
  induction d with
  | nil => simp [dictSet, dictGet?]
  | cons p rest ih =>
    by_cases h : p.1 = k <;> simp [dictSet, dictGet?, h, ih]

theorem dictGet?_dictSet_ne (d : List (String × String)) (k v k' : String)
    (h : k' ≠ k) : dictGet? (dictSet d k v) k' = dictGet? d k' := by
  have h' : k ≠ k' := h.symm
  induction d with
  | nil => simp [dictSet, dictGet?, h']
  | cons p rest ih =>
    by_cases hp : p.1 = k
    · simp only [dictSet, if_pos hp, dictGet?, if_neg h', hp]
    · simp only [dictSet, if_neg hp, dictGet?]
      by_cases hp' : p.1 = k' <;> simp [hp', ih]

theorem dictSetdefault_of_present (d : List (String × String)) (k v w : String)
    (h : dictGet? d k = some v) : dictSetdefault d k w = d := by
  induction d with
  | nil => simp [dictGet?] at h
  | cons p rest ih =>
    by_cases hp : p.1 = k
    · simp [dictSetdefault, hp]
    · simp only [dictGet?, if_neg hp] at h
      simp [dictSetdefault, hp, ih h]

theorem dictGet?_dictSetdefault_absent (d : List (String × String)) (k w : String)
    (h : dictGet? d k = none) : dictGet? (dictSetdefault d k w) k = some w := by
  induction d with
  | nil => simp [dictSetdefault, dictGet?]
  | cons p rest ih =>
    by_cases hp : p.1 = k
    · simp [dictGet?, hp] at h
    · simp only [dictGet?, if_neg hp] at h
      simp [dictSetdefault, dictGet?, hp, ih h]

theorem dictGet?_dictSetdefault_ne (d : List (String × String)) (k w k' : String)
    (h : k' ≠ k) : dictGet? (dictSetdefault d k w) k' = dictGet? d k' := by
  have h' : k ≠ k' := h.symm
  induction d with
  | nil => simp [dictSetdefault, dictGet?, h']
  | cons p rest ih =>
    by_cases hp : p.1 = k
    · simp [dictSetdefault, hp]
    · simp only [dictSetdefault, if_neg hp, dictGet?]
      by_cases hp' : p.1 = k' <;> simp [hp', ih]

theorem dictGet?_eq_none_of_not_mem (d : List (String × String)) (k : String)
    (h : k ∉ d.map Prod.fst) : dictGet? d k = none := by
  induction d with
  | nil => simp [dictGet?]
  | cons p rest ih =>
    simp only [List.map_cons, List.mem_cons] at h
    push_neg at h
    have h1 : p.1 ≠ k := h.1.symm
    simp [dictGet?, h1, ih h.2]

theorem dictMerge_cons (a : List (String × String)) (p : String × String)
    (rest : List (String × String)) :
    dictMerge a (p :: rest) = dictMerge (dictSet a p.1 p.2) rest := rfl

theorem dictGet?_dictMerge_left (a b : List (String × String)) (k : String)
    (h : dictGet? b k = none) : dictGet? (dictMerge a b) k = dictGet? a k := by
  induction b generalizing a with
  | nil => simp [dictMerge]
  | cons p rest ih =>
    by_cases hp : p.1 = k
    · simp [dictGet?, hp] at h
    · simp only [dictGet?, if_neg hp] at h
      rw [dictMerge_cons, ih (dictSet a p.1 p.2) h,
        dictGet?_dictSet_ne a p.1 p.2 k (fun hh => hp hh.symm)]

theorem dictGet?_dictMerge_right (a b : List (String × String)) (k v : String)
    (hnd : (b.map Prod.fst).Nodup) (h : dictGet? b k = some v) :
    dictGet? (dictMerge a b) k = some v := by
  induction b generalizing a with
  | nil => simp [dictGet?] at h
  | cons p rest ih =>
    simp only [List.map_cons, List.nodup_cons] at hnd
    by_cases hp : p.1 = k
    · have hv : p.2 = v := by
        simpa [dictGet?, hp] using h
      have hrest : dictGet? rest k = none := by
        refine dictGet?_eq_none_of_not_mem rest k (fun hmem => hnd.1 ?_)
        rw [hp]; exact hmem
      rw [dictMerge_cons, dictGet?_dictMerge_left (dictSet a p.1 p.2) rest k hrest,
        hp, dictGet?_dictSet_self, hv]
    · simp only [dictGet?, if_neg hp] at h
      rw [dictMerge_cons]
      exact ih (dictSet a p.1 p.2) hnd.2 h

/-! ### Claim C1 (error handling of the fetch layer) -/

/-- Claim C1, counterexample: `Fetcher._request` installs no exception
handler, so a client failure (here a connection timeout) propagates to the
caller as a raised exception — the error side of the `Except` — rather
than being captured inside an ok-result. This refutes "the call never
raises". -/
theorem C1_never_raises_counterexample :
    Fetcher.request ⟨"webscanner/1.0", none, [], 1 / 5⟩
      (fun _ _ => .exn "Connection timeout" none) [] none =
      .error ("Connection timeout", none) := rfl

/-- Claim C1, amended: a failure of a request issued through
`Fetcher._request` propagates to the caller as an exception; the probe-side
wrapper `XSSTester._fetch_text` is what never raises — it catches the
exception and returns the failure reason inside its result dict. For every
client behaviour, either the request succeeds and the wrapper returns the
ok-dict, or the request raises and the wrapper returns the error dict
carrying the same reason and status attribute. -/
theorem C1_fetch_failure_result_amended (f : Fetcher)
    (client : List (String × String) → List (String × String) → ClientOutcome)
    (h : List (String × String)) (c : Option (List (String × String))) :
    (∃ s b, f.request client h c = .ok (s, b) ∧
      fetch_text (f.request client h c) = .ok (some s) b) ∨
    (∃ e st, f.request client h c = .error (e, st) ∧
      fetch_text (f.request client h c) = .err e st) := by
  cases hcl : client (f.buildHeaders h) (f.buildCookies c) with
  | resp s b =>
    exact .inl ⟨s, b, by simp [Fetcher.request, hcl],
      by simp [Fetcher.request, fetch_text, hcl]⟩
  | exn m st =>
    exact .inr ⟨m, st, by simp [Fetcher.request, hcl],
      by simp [Fetcher.request, fetch_text, hcl]⟩

/-! ### Claim C6 (per-host throttling) -/

/-- Dispatch is never earlier than `last + delay`. -/
theorem applyRateLimit_lower (delay last now : ℚ) :
    last + delay ≤ (applyRateLimit delay last now).1 := by
  unfold applyRateLimit
  by_cases hlt : now - last < delay
  · simp only [if_pos hlt]; linarith
  · simp only [if_neg hlt]; linarith

/-- Claim C6, counterexample: the rate-limit state of `Fetcher` is the
single timestamp `_last_request_time` — the host is not part of the state.
A request to `hostb` arriving 0.1 s after a request to `hosta` is delayed
to 0.2 s after it (dispatch 100.2 > arrival 100.1), although the hosts are
distinct. This refutes "requests to distinct hosts are not delayed against
each other". -/
theorem C6_per_host_counterexample :
    runRequests (1 / 5) 0 [("hosta", 100), ("hostb", 1001 / 10)] =
      [100, 501 / 5] ∧
    ("hosta" : String) ≠ "hostb" ∧ (1001 / 10 : ℚ) < 501 / 5 := by
  refine ⟨?_, by decide, by norm_num⟩
  norm_num [runRequests, applyRateLimit]

/-- Claim C6, amended: the throttle of the fetch layer is global, keyed by
nothing: the dispatch times are unchanged under any renaming of the
destination hosts, and (in the sequential model of the semaphore-serialized
`_apply_rate_limit`) every two consecutive requests through one `Fetcher`
are spaced at least the configured delay apart, whatever their hosts. -/
theorem C6_global_throttle_amended (delay last : ℚ) (reqs : List (String × ℚ))
    (rename : String → String) :
    runRequests delay last reqs =
      runRequests delay last (reqs.map (fun r => (rename r.1, r.2))) ∧
    List.Chain' (fun d₁ d₂ => d₁ + delay ≤ d₂) (runRequests delay last reqs) := by
  constructor
  · induction reqs generalizing last with
    | nil => rfl
    | cons r rest ih => simp [runRequests, ih]
  · induction reqs generalizing last with
    | nil => exact List.chain'_nil
    | cons r rest ih =>
      rw [runRequests, List.chain'_cons']
      refine ⟨?_, ih _⟩
      intro y hy
      cases rest with
      | nil => simp [runRequests] at hy
      | cons r₂ rest₂ =>
        simp only [runRequests, List.head?_cons, Option.mem_def,
          Option.some.injEq] at hy
        subst hy
        have hsnd : (applyRateLimit delay last r.2).2 =
            (applyRateLimit delay last r.2).1 := by
          unfold applyRateLimit
          by_cases hlt : r.2 - last < delay <;> simp [hlt]
        rw [← hsnd]
        exact applyRateLimit_lower delay _ r₂.2

/-! ### Claim C7 (header and cookie merge precedence) -/

/-- Claim C7, counterexample: with a bearer token configured,
`_request` executes `headers["Authorization"] = f"Bearer {token}"` after
merging the caller headers, so on an `Authorization` collision the
configured token wins, not the caller. This refutes "on any key collision
... the caller's value is the one sent". -/
theorem C7_auth_override_counterexample :
    dictGet? (Fetcher.buildHeaders ⟨"webscanner/1.0", some "tok", [], 1 / 5⟩
      [("Authorization", "CallerValue")]) "Authorization" =
      some "Bearer tok" ∧
    ("Bearer tok" : String) ≠ "CallerValue" := by
  exact ⟨rfl, by decide⟩

/-- Claim C7, amended: the caller's value wins for the `User-Agent`
header and for every cookie name, and the defaults apply only to keys the
caller did not supply; the one exception is `Authorization`, which a
configured bearer token always overwrites (when no token is configured the
caller's `Authorization` passes through). -/
theorem C7_merge_precedence_amended (f : Fetcher)
    (caller cookies : List (String × String))
    (hnd : (cookies.map Prod.fst).Nodup) :
    (∀ v, dictGet? caller "User-Agent" = some v →
      dictGet? (f.buildHeaders caller) "User-Agent" = some v) ∧
    (dictGet? caller "User-Agent" = none →
      dictGet? (f.buildHeaders caller) "User-Agent" = some f.user_agent) ∧
    (∀ t, f.auth_token = some t →
      dictGet? (f.buildHeaders caller) "Authorization" = some ("Bearer " ++ t)) ∧
    (f.auth_token = none →
      dictGet? (f.buildHeaders caller) "Authorization" =
        dictGet? caller "Authorization") ∧
    (∀ k v, dictGet? cookies k = some v →
      dictGet? (f.buildCookies (some cookies)) k = some v) ∧
    (∀ k, dictGet? cookies k = none →
      dictGet? (f.buildCookies (some cookies)) k = dictGet? f.cookies k) := by
  have hUA : ("User-Agent" : String) ≠ "Authorization" := by decide
  refine ⟨?_, ?_, ?_, ?_, ?_, ?_⟩
  · intro v hv
    unfold Fetcher.buildHeaders
    rw [dictSetdefault_of_present caller _ v _ hv]
    cases ht : f.auth_token with
    | none => exact hv
    | some t => rw [dictGet?_dictSet_ne _ _ _ _ hUA]; exact hv
  · intro hnone
    unfold Fetcher.buildHeaders
    cases ht : f.auth_token with
    | none => exact dictGet?_dictSetdefault_absent caller _ _ hnone
    | some t =>
      rw [dictGet?_dictSet_ne _ _ _ _ hUA]
      exact dictGet?_dictSetdefault_absent caller _ _ hnone
  · intro t ht
    unfold Fetcher.buildHeaders
    rw [ht]
    exact dictGet?_dictSet_self _ _ _
  · intro ht
    unfold Fetcher.buildHeaders
    rw [ht]
    exact dictGet?_dictSetdefault_ne caller _ _ _ (by decide)
  · intro k v hv
    exact dictGet?_dictMerge_right f.cookies cookies k v hnd hv
  · intro k hk
    exact dictGet?_dictMerge_left f.cookies cookies k hk

/-- Witness for the amended C7 theorem at a concrete fetcher and caller:
the caller's user agent survives, the configured token overwrites the
caller's `Authorization`, the caller's `sid` cookie beats the jar's, and
the untouched `jar` cookie falls back to the configured jar. -/
theorem C7_merge_precedence_witness :
    dictGet? (Fetcher.buildHeaders
        ⟨"webscanner/1.0", some "tok", [("sid", "jarsid"), ("jar", "j")], 1 / 5⟩
        [("User-Agent", "Custom"), ("Authorization", "X")]) "User-Agent" =
      some "Custom" ∧
    dictGet? (Fetcher.buildHeaders
        ⟨"webscanner/1.0", some "tok", [("sid", "jarsid"), ("jar", "j")], 1 / 5⟩
        [("User-Agent", "Custom"), ("Authorization", "X")]) "Authorization" =
      some ("Bearer " ++ "tok") ∧
    dictGet? (Fetcher.buildCookies
        ⟨"webscanner/1.0", some "tok", [("sid", "jarsid"), ("jar", "j")], 1 / 5⟩
        (some [("sid", "callersid")])) "sid" = some "callersid" ∧
    dictGet? (Fetcher.buildCookies
        ⟨"webscanner/1.0", some "tok", [("sid", "jarsid"), ("jar", "j")], 1 / 5⟩
        (some [("sid", "callersid")])) "jar" =
      dictGet? [("sid", "jarsid"), ("jar", "j")] "jar" := by
  refine ⟨(C7_merge_precedence_amended _ _ [("sid", "callersid")] (by decide)).1
      "Custom" rfl,
    (C7_merge_precedence_amended _ [("User-Agent", "Custom"), ("Authorization", "X")]
      [("sid", "callersid")] (by decide)).2.2.1 "tok" rfl,
    (C7_merge_precedence_amended _ [("User-Agent", "Custom"), ("Authorization", "X")]
      [("sid", "callersid")] (by decide)).2.2.2.2.1 "sid" "callersid" rfl,
    (C7_merge_precedence_amended _ [("User-Agent", "Custom"), ("Authorization", "X")]
      [("sid", "callersid")] (by decide)).2.2.2.2.2 "jar" rfl⟩

/-! ### Claim C8 (link normalization in the crawler) -/

/-- Claim C8, counterexample: `Crawler._normalize` takes no current-page
argument; a relative link `x.html` found on the page
`http://example.com/dir/page.html` of a crawl started at
`http://example.com` is resolved against the start URL (giving
`http://example.com/x.html`), not against the current page (which would
give `http://example.com/dir/x.html`). This refutes "a relative path
[is resolved] against the URL of the current page being parsed". -/
theorem C8_relative_link_counterexample :
    Crawler.normalize "http://example.com" "x.html" =
      "http://example.com/x.html" ∧
    urljoin "http://example.com/dir/page.html" "x.html" =
      "http://example.com/dir/x.html" ∧
    Crawler.normalize "http://example.com" "x.html" ≠
      urljoin "http://example.com/dir/page.html" "x.html" := by
  refine ⟨by decide, by decide, by decide⟩

/-- Claim C8, amended: normalization resolves a protocol-relative URL
against the crawl base's scheme (universally), a root-relative URL against
the base origin, and a relative path against the crawl's start URL with a
trailing slash — not against the current page (illustrated on concrete
pages). -/
theorem C8_link_normalization_amended :
    (∀ base url : String, listStartsWith ['/', '/'] url.data = true →
      Crawler.normalize base url = (urlparse base).scheme ++ ":" ++ url) ∧
    Crawler.normalize "http://example.com" "/path" = "http://example.com/path" ∧
    Crawler.normalize "http://example.com/dir/page.html" "/path" =
      "http://example.com/path" ∧
    Crawler.normalize "http://example.com" "x.html" =
      "http://example.com/x.html" ∧
    Crawler.normalize "http://example.com/sub" "a/b.html" =
      "http://example.com/sub/a/b.html" := by
  refine ⟨?_, by decide, by decide, by decide, by decide⟩
  intro base url h
  simp [Crawler.normalize, h]

/-- Witness for the amended C8 theorem: a protocol-relative stylesheet URL
on an HTTP crawl keeps the crawl scheme. -/
theorem C8_link_normalization_witness :
    Crawler.normalize "http://example.com" "//cdn.io/lib.js" =
      (urlparse "http://example.com").scheme ++ ":" ++ "//cdn.io/lib.js" :=
  C8_link_normalization_amended.1 "http://example.com" "//cdn.io/lib.js" (by decide)

/-! ### Claim C10 (failed fetches during a crawl) -/

/-- One crawl step cannot fetch or enqueue a URL that is already in
`seen`, and `seen` membership persists. -/
theorem crawlStep_no_refetch (base : String)
    (fetch : String → Except String String)
    (extract : String → String → List String × List RawForm)
    (maxPages : Nat) (url : String) (st : CrawlState)
    (hseen : st.seen.contains url = true) :
    (crawlStep base fetch extract maxPages st).fetched.count url =
      st.fetched.count url ∧
    (crawlStep base fetch extract maxPages st).queue.count url ≤
      st.queue.count url ∧
    (crawlStep base fetch extract maxPages st).seen.contains url = true := by
  obtain ⟨seen, queue, forms, fetched⟩ := st
  simp only at hseen
  cases queue with
  | nil => exact ⟨rfl, le_refl _, hseen⟩
  | cons h rest =>
    have hq_le : rest.count url ≤ (h :: rest).count url := by
      rw [List.count_cons]
      exact Nat.le_add_right _ _
    by_cases hb : maxPages ≤ seen.length
    · simp only [crawlStep, if_pos hb]
      exact ⟨by trivial, hq_le, hseen⟩
    · simp only [crawlStep, if_neg hb]
      by_cases hv : seen.contains h
      · simp only [if_pos hv]
        exact ⟨by trivial, hq_le, hseen⟩
      · simp only [hv, Bool.false_eq_true, if_false]
        have hne : h ≠ url := fun he => by rw [he, hseen] at hv; exact hv rfl
        have hcontains : (seen ++ [h]).contains url = true := by
          rw [List.elem_iff] at hseen ⊢
          exact List.mem_append_left _ hseen
        have hcount : (fetched ++ [h]).count url = fetched.count url := by
          rw [List.count_append, List.count_singleton']
          simp [hne]
        cases hf : fetch h with
        | error e => exact ⟨hcount, hq_le, hcontains⟩
        | ok html =>
          refine ⟨hcount, ?_, hcontains⟩
          have hzero :
              ((((extract html h).1.map (Crawler.normalize base)).filter
                (fun l => Crawler.sameDomain base l &&
                  !(seen ++ [h]).contains l)).count url) = 0 := by
            refine List.count_eq_zero.mpr (fun hmem => ?_)
            have hfl := (List.mem_filter.mp hmem).2
            rw [Bool.and_eq_true] at hfl
            rw [hcontains] at hfl
            simp at hfl
          rw [List.count_append, hzero, Nat.add_zero, List.count_cons]
          exact Nat.le_add_right _ _

/-- A URL already in `seen` is never fetched again in the remainder of a
crawl run, and its queue copies only ever get discarded. -/
theorem crawlRun_no_refetch (base : String)
    (fetch : String → Except String String)
    (extract : String → String → List String × List RawForm)
    (maxPages : Nat) (url : String) :
    ∀ fuel st, st.seen.contains url = true →
      (crawlRun base fetch extract maxPages fuel st).fetched.count url =
        st.fetched.count url := by
  intro fuel
  induction fuel with
  | zero => intro st _; rfl
  | succ n ih =>
    intro st hseen
    rw [crawlRun]
    cases hq : st.queue with
    | nil => rfl
    | cons h rest =>
      have step := crawlStep_no_refetch base fetch extract maxPages url st hseen
      rw [ih _ step.2.2, step.1]

/-- Claim C10: a URL whose fetch fails is still marked visited (and so
counts toward the `maxPages` budget, which compares against `len(seen)`),
nothing is enqueued and no form is produced for it (the state update
touches only `seen`, the popped queue and the fetch trace), and the URL is
never fetched again for the rest of the run. -/
theorem C10_failed_fetch_absorbed (base : String)
    (fetch : String → Except String String)
    (extract : String → String → List String × List RawForm)
    (maxPages : Nat) (st : CrawlState) (url e : String) (rest : List String)
    (hq : st.queue = url :: rest) (hs : st.seen.contains url = false)
    (hb : st.seen.length < maxPages) (hf : fetch url = .error e) :
    crawlStep base fetch extract maxPages st =
      { st with queue := rest, seen := st.seen ++ [url],
                fetched := st.fetched ++ [url] } ∧
    (st.seen ++ [url]).length = st.seen.length + 1 ∧
    (st.seen ++ [url]).contains url = true ∧
    ∀ fuel, (crawlRun base fetch extract maxPages fuel
        (crawlStep base fetch extract maxPages st)).fetched.count url =
      st.fetched.count url + 1 := by
  have hstep : crawlStep base fetch extract maxPages st =
      { st with queue := rest, seen := st.seen ++ [url],
                fetched := st.fetched ++ [url] } := by
    unfold crawlStep
    rw [hq]
    simp only [Nat.not_le.mpr hb, if_false, hs, Bool.false_eq_true, if_false, hf]
  refine ⟨hstep, by simp, by simp, ?_⟩
  intro fuel
  have hcontains : (crawlStep base fetch extract maxPages st).seen.contains url
      = true := by
    rw [hstep]; simp
  rw [crawlRun_no_refetch base fetch extract maxPages url fuel _ hcontains, hstep]
  simp [List.count_append]

/-- Witness for C10: a single-URL crawl whose only fetch fails. -/
theorem C10_failed_fetch_witness :
    crawlStep "http://t.io" (fun _ => .error "ConnectionError")
      (fun _ _ => ([], [])) 50 ⟨[], ["http://t.io/"], [], []⟩ =
      { seen := [] ++ ["http://t.io/"], queue := [], forms := [],
        fetched := [] ++ ["http://t.io/"] } ∧
    (([] : List String) ++ ["http://t.io/"]).length =
      List.length ([] : List String) + 1 ∧
    (([] : List String) ++ ["http://t.io/"]).contains "http://t.io/" = true ∧
    ∀ fuel, (crawlRun "http://t.io" (fun _ => .error "ConnectionError")
        (fun _ _ => ([], [])) 50 fuel
        (crawlStep "http://t.io" (fun _ => .error "ConnectionError")
          (fun _ _ => ([], [])) 50 ⟨[], ["http://t.io/"], [], []⟩)).fetched.count
        "http://t.io/" = List.count "http://t.io/" ([] : List String) + 1 :=
  C10_failed_fetch_absorbed "http://t.io" (fun _ => .error "ConnectionError")
    (fun _ _ => ([], [])) 50 ⟨[], ["http://t.io/"], [], []⟩ "http://t.io/"
    "ConnectionError" [] rfl rfl (by decide) rfl

/-! ### Claims C2, C4, C5 (the XSS per-payload retry loop) -/

set_option maxRecDepth 100000

/-- A non-empty pattern is not contained in the empty string. -/
theorem strContains_empty (m : String) (hm : m ≠ "") :
    strContains "" m = false := by
  have : m.data ≠ [] := fun h => hm (by
    cases m with
    | mk d => simp at h; rw [h])
  unfold strContains strContainsL
  cases hd : m.data with
  | nil => exact absurd hd this
  | cons c cs => simp [listStartsWith]

/-- The retry loop returns the definitive reflected finding as soon as an
attempt's body contains the marker verbatim, after exactly `k + 1` fetches
when the marker first appears on attempt `k` (earlier attempts succeeding
without the marker). -/
theorem probeLoop_marker_hit (target param payload marker baseText : String)
    (T : ℚ) (env : Nat → FetchOut) :
    ∀ (k remaining i : Nat) (bestSim : ℚ) (bestText : String)
      (lastStatus st : Option Nat) (t : String),
      k < remaining →
      (∀ d, d < k → (env (i + d)).okQ = true ∧
        strContains (env (i + d)).textD marker = false) →
      env (i + k) = .ok st t → strContains t marker = true →
      probeLoop target param payload marker baseText T env remaining i
        bestSim bestText lastStatus =
        ⟨[⟨target, param, payload, marker, true, false, st,
            some (attemptSim baseText t), none⟩], k + 1⟩ := by
  intro k
  induction k with
  | zero =>
    intro remaining i bestSim bestText lastStatus st t hrem _hpre henv hmark
    match remaining, hrem with
    | r + 1, _ =>
      rw [Nat.add_zero] at henv
      simp only [probeLoop, henv, hmark, if_true]
  | succ k ih =>
    intro remaining i bestSim bestText lastStatus st t hrem hpre henv hmark
    match remaining, hrem with
    | r + 1, hrem =>
      have h0 := hpre 0 (Nat.succ_pos k)
      rw [Nat.add_zero] at h0
      obtain ⟨st0, t0, henv0⟩ : ∃ s u, env i = .ok s u := by
        cases he : env i with
        | ok s u => exact ⟨s, u, rfl⟩
        | err e s => rw [he] at h0; simp [FetchOut.okQ] at h0
      have hnm0 : strContains t0 marker = false := by
        have := h0.2
        rw [henv0] at this
        simpa [FetchOut.textD] using this
      have hrec := ih r (i + 1) (if attemptSim baseText t0 < bestSim
          then attemptSim baseText t0 else bestSim)
        (if attemptSim baseText t0 < bestSim then t0 else bestText) st0 st t
        (Nat.lt_of_succ_lt_succ hrem)
        (fun d hd => by
          have := hpre (d + 1) (Nat.succ_lt_succ hd)
          rwa [Nat.add_succ, ← Nat.succ_add] at this)
        (by rwa [Nat.succ_add, ← Nat.add_succ])
        hmark
      simp only [probeLoop, henv0, hnm0, Bool.false_eq_true, if_false, hrec]

/-- The retry loop aborts at the first failed attempt: when attempts before
`k` succeed without reflecting the marker and attempt `k` fails, the loop
breaks, appends only the error finding carrying that failure's reason and
status, and performs exactly `k + 1` fetches — evidence from the earlier
successful attempts is discarded. -/
theorem probeLoop_error_hit (target param payload marker baseText : String)
    (T : ℚ) (env : Nat → FetchOut) :
    ∀ (k remaining i : Nat) (bestSim : ℚ) (bestText : String)
      (lastStatus st : Option Nat) (e : String),
      k < remaining →
      (∀ d, d < k → (env (i + d)).okQ = true ∧
        strContains (env (i + d)).textD marker = false) →
      env (i + k) = .err e st →
      probeLoop target param payload marker baseText T env remaining i
        bestSim bestText lastStatus =
        ⟨[⟨target, param, payload, marker, false, false, st, none, some e⟩],
          k + 1⟩ := by
  intro k
  induction k with
  | zero =>
    intro remaining i bestSim bestText lastStatus st e hrem _hpre henv
    match remaining, hrem with
    | r + 1, _ =>
      rw [Nat.add_zero] at henv
      simp only [probeLoop, henv]
  | succ k ih =>
    intro remaining i bestSim bestText lastStatus st e hrem hpre henv
    match remaining, hrem with
    | r + 1, hrem =>
      have h0 := hpre 0 (Nat.succ_pos k)
      rw [Nat.add_zero] at h0
      obtain ⟨st0, t0, henv0⟩ : ∃ s u, env i = .ok s u := by
        cases he : env i with
        | ok s u => exact ⟨s, u, rfl⟩
        | err e' s => rw [he] at h0; simp [FetchOut.okQ] at h0
      have hnm0 : strContains t0 marker = false := by
        have := h0.2
        rw [henv0] at this
        simpa [FetchOut.textD] using this
      have hrec := ih r (i + 1) (if attemptSim baseText t0 < bestSim
          then attemptSim baseText t0 else bestSim)
        (if attemptSim baseText t0 < bestSim then t0 else bestText) st0 st e
        (Nat.lt_of_succ_lt_succ hrem)
        (fun d hd => by
          have := hpre (d + 1) (Nat.succ_lt_succ hd)
          rwa [Nat.add_succ, ← Nat.succ_add] at this)
        (by rwa [Nat.succ_add, ← Nat.add_succ])
      simp only [probeLoop, henv0, hnm0, Bool.false_eq_true, if_false, hrec]

/-- When every attempt of the loop succeeds and never reflects the marker,
the loop performs all `r + 1` fetches, keeps the minimum similarity as
evidence, and classifies with the threshold plus the `+ 0.05` suspected
band; the reported status is the last attempt's. -/
theorem probeLoop_all_ok (target param payload marker baseText : String)
    (T : ℚ) (env : Nat → FetchOut) :
    ∀ (r i : Nat) (bestSim : ℚ) (bestText : String) (lastStatus : Option Nat),
      (∀ d, d ≤ r → (env (i + d)).okQ = true ∧
        strContains (env (i + d)).textD marker = false) →
      strContains bestText marker = false →
      probeLoop target param payload marker baseText T env (r + 1) i
        bestSim bestText lastStatus =
        ⟨[⟨target, param, payload, marker,
            decide (((List.range (r + 1)).map
              (fun d => attemptSim baseText ((env (i + d)).textD))).foldl
                min bestSim < T),
            !decide (((List.range (r + 1)).map
              (fun d => attemptSim baseText ((env (i + d)).textD))).foldl
                min bestSim < T) &&
              decide (((List.range (r + 1)).map
                (fun d => attemptSim baseText ((env (i + d)).textD))).foldl
                  min bestSim < T + 1 / 20),
            (env (i + r)).statusD,
            some (((List.range (r + 1)).map
              (fun d => attemptSim baseText ((env (i + d)).textD))).foldl
                min bestSim),
            none⟩], r + 1⟩ := by
  intro r
  induction r with
  | zero =>
    intro i bestSim bestText lastStatus hpre hbt
    have h0 := hpre 0 (le_refl 0)
    rw [Nat.add_zero] at h0
    obtain ⟨st0, t0, henv0⟩ : ∃ s u, env i = .ok s u := by
      cases he : env i with
      | ok s u => exact ⟨s, u, rfl⟩
      | err e s => rw [he] at h0; simp [FetchOut.okQ] at h0
    have hnm0 : strContains t0 marker = false := by
      have := h0.2
      rw [henv0] at this
      simpa [FetchOut.textD] using this
    have hbt' : strContains (if attemptSim baseText t0 < bestSim then t0
        else bestText) marker = false := by
      by_cases hc : attemptSim baseText t0 < bestSim <;> simp [hc, hnm0, hbt]
    have hmin : (if attemptSim baseText t0 < bestSim
        then attemptSim baseText t0 else bestSim) =
        min bestSim (attemptSim baseText t0) := by
      rw [min_comm]
      by_cases hc : attemptSim baseText t0 < bestSim
      · rw [if_pos hc, min_eq_left (le_of_lt hc)]
      · rw [if_neg hc, min_eq_right (not_lt.mp hc)]
    have hsim0 : attemptSim baseText ((env (i + 0)).textD) =
        attemptSim baseText t0 := by
      rw [Nat.add_zero, henv0]
      rfl
    have hr1 : List.range 1 = [0] := rfl
    simp only [probeLoop, henv0, hnm0, Bool.false_eq_true, if_false, hbt',
      Bool.false_or, hr1, List.map_cons, List.map_nil,
      List.foldl_cons, List.foldl_nil, hsim0, hmin, Nat.add_zero,
      FetchOut.statusD, FetchOut.textD]
  | succ r ih =>
    intro i bestSim bestText lastStatus hpre hbt
    have h0 := hpre 0 (Nat.zero_le _)
    rw [Nat.add_zero] at h0
    obtain ⟨st0, t0, henv0⟩ : ∃ s u, env i = .ok s u := by
      cases he : env i with
      | ok s u => exact ⟨s, u, rfl⟩
      | err e s => rw [he] at h0; simp [FetchOut.okQ] at h0
    have hnm0 : strContains t0 marker = false := by
      have := h0.2
      rw [henv0] at this
      simpa [FetchOut.textD] using this
    have hbt' : strContains (if attemptSim baseText t0 < bestSim then t0
        else bestText) marker = false := by
      by_cases hc : attemptSim baseText t0 < bestSim <;> simp [hc, hnm0, hbt]
    have hrec := ih (i + 1) (if attemptSim baseText t0 < bestSim
        then attemptSim baseText t0 else bestSim)
      (if attemptSim baseText t0 < bestSim then t0 else bestText) st0
      (fun d hd => by
        have := hpre (d + 1) (Nat.succ_le_succ hd)
        rwa [Nat.add_succ, ← Nat.succ_add] at this)
      hbt'
    rw [probeLoop, henv0]
    simp only [hnm0, Bool.false_eq_true, if_false, hrec]
    have hshift : ∀ d : Nat, i + 1 + d = i + Nat.succ d := by
      intro d
      rw [Nat.succ_add, ← Nat.add_succ]
    have hsim0 : attemptSim baseText ((env (i + 0)).textD) =
        attemptSim baseText t0 := by
      rw [Nat.add_zero, henv0]
      rfl
    have hlist : (List.range (r + 1 + 1)).map
        (fun d => attemptSim baseText ((env (i + d)).textD)) =
        attemptSim baseText t0 ::
          (List.range (r + 1)).map
            (fun d => attemptSim baseText ((env (i + 1 + d)).textD)) := by
      rw [List.range_succ_eq_map, List.map_cons, List.map_map]
      refine congrArg₂ _ hsim0 (List.map_congr_left (fun d _ => ?_))
      simp only [Function.comp_apply, hshift]
    have hmin : (if attemptSim baseText t0 < bestSim
        then attemptSim baseText t0 else bestSim) =
        min bestSim (attemptSim baseText t0) := by
      rw [min_comm]
      by_cases hc : attemptSim baseText t0 < bestSim
      · rw [if_pos hc, min_eq_left (le_of_lt hc)]
      · rw [if_neg hc, min_eq_right (not_lt.mp hc)]
    refine congrArg₂ _ ?_ rfl
    rw [hlist, List.foldl_cons, hmin, hshift r]

/-- Claim C2: when the literal marker appears verbatim in the probe
response body of attempt `k` (all earlier attempts having succeeded
without it), `test_reflected_get`/`test_reflected_post`'s per-payload loop
classifies the payload `reflected = True` immediately on that attempt: the
single finding is the definitive reflected record and exactly `k + 1`
fetches were performed — the remaining retries are skipped. -/
theorem C2_marker_short_circuit (target param payload marker baseText : String)
    (T : ℚ) (retries k : Nat) (env : Nat → FetchOut) (st : Option Nat)
    (t : String) (hk : k ≤ retries)
    (hpre : ∀ i, i < k → (env i).okQ = true ∧
      strContains (env i).textD marker = false)
    (henv : env k = .ok st t) (hmark : strContains t marker = true) :
    probePayload target param payload marker baseText T retries env =
      ⟨[⟨target, param, payload, marker, true, false, st,
          some (attemptSim baseText t), none⟩], k + 1⟩ := by
  unfold probePayload
  refine probeLoop_marker_hit target param payload marker baseText T env
    k (retries + 1) 0 1 "" none st t (Nat.lt_succ_of_le hk)
    (fun d hd => by simpa using hpre d hd) (by simpa using henv) hmark

/-- Witness for C2: the very first attempt reflects the marker; the loop
stops after one fetch although two retries were allowed. -/
theorem C2_marker_short_circuit_witness :
    probePayload "t" "id" "__WS__m1__" "__WS__m1__" "base" (49 / 50) 2
      (fun _ => .ok (some 200) "xx __WS__m1__ yy") =
      ⟨[⟨"t", "id", "__WS__m1__", "__WS__m1__", true, false, some 200,
          some (attemptSim "base" "xx __WS__m1__ yy"), none⟩], 0 + 1⟩ :=
  C2_marker_short_circuit "t" "id" "__WS__m1__" "__WS__m1__" "base" (49 / 50)
    2 0 (fun _ => .ok (some 200) "xx __WS__m1__ yy") (some 200)
    "xx __WS__m1__ yy" (Nat.zero_le 2)
    (fun i hi => absurd hi (Nat.not_lt_zero i)) rfl (by decide)

/-- Claim C5, counterexample: with `retries = 1`, the first attempt
succeeds (without the marker) and the second fails; the loop classifies the
payload as an error finding anyway — the successful attempt's evidence is
discarded. This refutes "classified error only when every one of its
`retries + 1` fetch attempts fails". -/
theorem C5_error_only_if_all_fail_counterexample :
    probePayload "t" "id" "p" "__WSM__" "Hello" (49 / 50) 1
      (fun i => if i = 0 then .ok (some 200) "Hello" else .err "boom" none) =
      ⟨[⟨"t", "id", "p", "__WSM__", false, false, none, none, some "boom"⟩],
        2⟩ ∧
    ((fun i => if i = 0 then FetchOut.ok (some 200) "Hello"
      else FetchOut.err "boom" none) 0).okQ = true := by
  exact ⟨by decide, by decide⟩

/-- Claim C5, amended: the loop classifies a payload as `error` (carrying
that failure's reason) as soon as any attempt fails before a marker hit;
the first failure breaks the loop after `k + 1` fetches, discarding the
evidence of the earlier successful attempts. Only a payload whose fetches
all succeed is classified from similarity evidence. -/
theorem C5_first_failure_aborts_amended (target param payload marker baseText :
    String) (T : ℚ) (retries k : Nat) (env : Nat → FetchOut)
    (st : Option Nat) (e : String) (hk : k ≤ retries)
    (hpre : ∀ i, i < k → (env i).okQ = true ∧
      strContains (env i).textD marker = false)
    (henv : env k = .err e st) :
    probePayload target param payload marker baseText T retries env =
      ⟨[⟨target, param, payload, marker, false, false, st, none, some e⟩],
        k + 1⟩ := by
  unfold probePayload
  refine probeLoop_error_hit target param payload marker baseText T env
    k (retries + 1) 0 1 "" none st e (Nat.lt_succ_of_le hk)
    (fun d hd => by simpa using hpre d hd) (by simpa using henv)

/-- Witness for the amended C5 theorem: first attempt ok and markerless,
second attempt times out; the loop stops after two fetches with the error
finding. -/
theorem C5_first_failure_aborts_witness :
    probePayload "t" "id" "p" "__WSM__" "Hello" (49 / 50) 2
      (fun i => if i = 0 then .ok (some 200) "Hello"
        else .err "TimeoutError" (some 504)) =
      ⟨[⟨"t", "id", "p", "__WSM__", false, false, some 504, none,
          some "TimeoutError"⟩], 1 + 1⟩ :=
  C5_first_failure_aborts_amended "t" "id" "p" "__WSM__" "Hello" (49 / 50) 2 1
    (fun i => if i = 0 then .ok (some 200) "Hello"
      else .err "TimeoutError" (some 504)) (some 504) "TimeoutError"
    (by decide)
    (fun i hi => by
      have h0 : i = 0 := by omega
      subst h0
      exact ⟨rfl, by decide⟩)
    rfl

/-- Claim C4, counterexample: with the default threshold `T = 0.98` and a
probe response identical to the baseline (similarity exactly 1 ≥ T, marker
absent), the finding is not clean — the loop sets the third, intermediate
flag `suspected = True` because `1 < T + 0.05`. This refutes "clean
otherwise — there is no third, intermediate classification above T". -/
theorem C4_no_third_class_counterexample :
    (probePayload "t" "id" "p" "__WSM__" "Hello" (49 / 50) 1
      (fun _ => .ok (some 200) "Hello")).results =
      [⟨"t", "id", "p", "__WSM__", false, true, some 200, some 1, none⟩] ∧
    ¬((1 : ℚ) < 49 / 50) := by
  have hnorm : normalize_html "Hello" = "Hello" := by decide
  have hsim : attemptSim "Hello" "Hello" = 1 := by
    unfold attemptSim
    rw [hnorm]
    show ratioQ "Hello".data "Hello".data = 1
    have ht : matchingTotal "Hello".data "Hello".data = 5 := by decide
    unfold ratioQ
    rw [ht]
    norm_num
  have h := probeLoop_all_ok "t" "id" "p" "__WSM__" "Hello" (49 / 50)
    (fun _ => .ok (some 200) "Hello") 1 0 1 "" none
    (fun d _ => ⟨rfl, by
      show strContains "Hello" "__WSM__" = false
      decide⟩)
    (by decide)
  refine ⟨?_, by norm_num⟩
  unfold probePayload
  rw [h]
  have hmap : (List.range (1 + 1)).map
      (fun d => attemptSim "Hello"
        (((fun _ : Nat => FetchOut.ok (some 200) "Hello") d).textD)) =
      [attemptSim "Hello" "Hello", attemptSim "Hello" "Hello"] := rfl
  rw [hmap, hsim]
  have hfold : List.foldl min (1 : ℚ) [1, 1] = 1 := by
    simp [List.foldl_cons, List.foldl_nil, min_self]
  rw [hfold]
  have hrefl : decide ((1 : ℚ) < 49 / 50) = false :=
    decide_eq_false (by norm_num)
  have hsusp : decide ((1 : ℚ) < 49 / 50 + 1 / 20) = true :=
    decide_eq_true (by norm_num)
  rw [hrefl, hsusp]
  rfl

/-- Claim C4, amended: when every attempt fetches successfully and the
marker never appears, the evidence is the lowest similarity observed across
the `retries + 1` attempts (the running minimum starts at 1.0); the payload
is classified `reflected` when that minimum is below T, otherwise it is
flagged with the third, intermediate classification `suspected` when the
minimum is below `T + 0.05` (always the case at the default `T = 0.98`,
since similarities never exceed 1), and clean only otherwise. -/
theorem C4_lowest_similarity_amended (target param payload marker baseText :
    String) (T : ℚ) (retries : Nat) (env : Nat → FetchOut) (hm : marker ≠ "")
    (hok : ∀ i, i ≤ retries → (env i).okQ = true)
    (hnm : ∀ i, i ≤ retries → strContains (env i).textD marker = false) :
    probePayload target param payload marker baseText T retries env =
      ⟨[⟨target, param, payload, marker,
          decide (((List.range (retries + 1)).map
            (fun d => attemptSim baseText ((env d).textD))).foldl min 1 < T),
          !decide (((List.range (retries + 1)).map
            (fun d => attemptSim baseText ((env d).textD))).foldl min 1 < T) &&
            decide (((List.range (retries + 1)).map
              (fun d => attemptSim baseText ((env d).textD))).foldl min 1 <
                T + 1 / 20),
          (env retries).statusD,
          some (((List.range (retries + 1)).map
            (fun d => attemptSim baseText ((env d).textD))).foldl min 1),
          none⟩], retries + 1⟩ := by
  unfold probePayload
  have h := probeLoop_all_ok target param payload marker baseText T env
    retries 0 1 "" none
    (fun d hd => ⟨by rw [Nat.zero_add]; exact hok d hd,
      by rw [Nat.zero_add]; exact hnm d hd⟩)
    (strContains_empty marker hm)
  simpa using h

/-- Witness for the amended C4 theorem: two attempts, both returning the
baseline body; the minimum similarity is 1, the finding is not reflected
but carries the suspected flag. -/
theorem C4_lowest_similarity_witness :
    probePayload "t" "id" "p" "__WSM__" "Hello" (49 / 50) 1
      (fun _ => .ok (some 200) "Hello") =
      ⟨[⟨"t", "id", "p", "__WSM__",
          decide (((List.range (1 + 1)).map
            (fun d => attemptSim "Hello"
              (((fun _ => FetchOut.ok (some 200) "Hello") d).textD))).foldl
                min 1 < 49 / 50),
          !decide (((List.range (1 + 1)).map
            (fun d => attemptSim "Hello"
              (((fun _ => FetchOut.ok (some 200) "Hello") d).textD))).foldl
                min 1 < 49 / 50) &&
            decide (((List.range (1 + 1)).map
              (fun d => attemptSim "Hello"
                (((fun _ => FetchOut.ok (some 200) "Hello") d).textD))).foldl
                  min 1 < 49 / 50 + 1 / 20),
          ((fun _ => FetchOut.ok (some 200) "Hello") 1).statusD,
          some (((List.range (1 + 1)).map
            (fun d => attemptSim "Hello"
              (((fun _ => FetchOut.ok (some 200) "Hello") d).textD))).foldl
                min 1),
          none⟩], 1 + 1⟩ :=
  C4_lowest_similarity_amended "t" "id" "p" "__WSM__" "Hello" (49 / 50) 1
    (fun _ => .ok (some 200) "Hello") (by decide) (fun i _ => rfl)
    (fun i _ => by
      show strContains "Hello" "__WSM__" = false
      decide)

/-! ### Claim C3 (SQLi basic mode) -/

/-- The payload loop of `basic_diff` for one parameter appends exactly the
first flagged record and stops: fetches run through payload `j` only. -/
theorem basicDiffParam_first_flag (env : String → ProbeOut) (parsed : UrlParts)
    (qs : List (String × List String)) (baseText p : String) :
    ∀ (payloads : List String) (j st : Nat) (t : String),
      j < payloads.length →
      (∀ i, i < j → sqliAttemptFlagged baseText
        (env (sqliTarget parsed qs p (payloads.getD i ""))) = false) →
      env (sqliTarget parsed qs p (payloads.getD j "")) = .resp st t →
      sqliFlag baseText st t = true →
      basicDiffParam env parsed qs baseText p payloads =
        ([⟨p, payloads.getD j "",
            sqliTarget parsed qs p (payloads.getD j ""), true, st⟩],
         (payloads.take (j + 1)).map (sqliTarget parsed qs p)) := by
  intro payloads
  induction payloads with
  | nil => intro j st t hj; exact absurd hj (Nat.not_lt_zero j)
  | cons payload rest ih =>
    intro j st t hj hpre henv hflag
    cases j with
    | zero =>
      simp only [List.getD_cons_zero] at henv
      simp only [basicDiffParam, henv, hflag, if_true, List.getD_cons_zero,
        List.take_succ_cons, List.take_zero, List.map_cons, List.map_nil]
    | succ j' =>
      have h0 := hpre 0 (Nat.succ_pos j')
      simp only [List.getD_cons_zero] at h0
      simp only [List.getD_cons_succ] at henv ⊢
      have hih := ih j' st t (Nat.lt_of_succ_lt_succ hj)
        (fun i hi => by
          have := hpre (i + 1) (Nat.succ_lt_succ hi)
          simpa [List.getD_cons_succ] using this)
        henv hflag
      cases he : env (sqliTarget parsed qs p payload) with
      | exn m =>
        rw [he] at h0
        simp only [basicDiffParam, he, hih, List.take_succ_cons, List.map_cons]
      | resp st0 t0 =>
        rw [he] at h0
        simp only [sqliAttemptFlagged] at h0
        simp only [basicDiffParam, he, h0, Bool.false_eq_true, if_false, hih,
          List.take_succ_cons, List.map_cons]

/-- The payload loop of `basic_diff` appends nothing and fetches every
payload when no attempt meets the flag condition. -/
theorem basicDiffParam_no_flag (env : String → ProbeOut) (parsed : UrlParts)
    (qs : List (String × List String)) (baseText p : String) :
    ∀ payloads : List String,
      (∀ pay ∈ payloads, sqliAttemptFlagged baseText
        (env (sqliTarget parsed qs p pay)) = false) →
      basicDiffParam env parsed qs baseText p payloads =
        ([], payloads.map (sqliTarget parsed qs p)) := by
  intro payloads
  induction payloads with
  | nil => intro _; rfl
  | cons payload rest ih =>
    intro hno
    have h0 := hno payload (List.mem_cons_self payload rest)
    have hrest := ih (fun pay hp => hno pay (List.mem_cons_of_mem payload hp))
    cases he : env (sqliTarget parsed qs p payload) with
    | exn m =>
      simp only [basicDiffParam, he, hrest, List.map_cons]
    | resp st0 t0 =>
      rw [he] at h0
      simp only [sqliAttemptFlagged] at h0
      simp only [basicDiffParam, he, h0, Bool.false_eq_true, if_false, hrest,
        List.map_cons]

/-- Claim C3: for a parameter of a probed URL, `basic_diff` tries the fixed
ordered payloads `'`, `"`, ` OR 1=1 -- ` in order; each probe URL carries
the payload appended to the parameter's current (first) value; an attempt
is flagged `suspected = True` exactly when its response has status ≥ 500 or
a body length differing from the baseline's; and the first flag stops the
remaining payloads for that parameter (an unflagged sweep fetches them
all and reports nothing). -/
theorem C3_basic_diff_first_hit (env : String → ProbeOut) (parsed : UrlParts)
    (qs : List (String × List String)) (baseText p : String) (j st : Nat)
    (t : String) (hj : j < BASIC_PAYLOADS.length)
    (hpre : ∀ i, i < j → sqliAttemptFlagged baseText
      (env (sqliTarget parsed qs p (BASIC_PAYLOADS.getD i ""))) = false)
    (henv : env (sqliTarget parsed qs p (BASIC_PAYLOADS.getD j "")) =
      .resp st t)
    (hflag : 500 ≤ st ∨ t.length ≠ baseText.length) :
    basicDiffParam env parsed qs baseText p BASIC_PAYLOADS =
      ([⟨p, BASIC_PAYLOADS.getD j "",
          sqliTarget parsed qs p (BASIC_PAYLOADS.getD j ""), true, st⟩],
       (BASIC_PAYLOADS.take (j + 1)).map (sqliTarget parsed qs p)) ∧
    BASIC_PAYLOADS = ["'", "\"", " OR 1=1 -- "] ∧
    (∀ pay, sqliTarget parsed qs p pay =
      urlunparse ⟨parsed.scheme, parsed.netloc, parsed.path, parsed.params,
        urlencode (dictSet (qs.map (fun kv => (kv.1, kv.2.getD 0 "")))
          p (dictGetD (qs.map (fun kv => (kv.1, kv.2.getD 0 ""))) p "" ++ pay)),
        parsed.fragment⟩) ∧
    (∀ env₂ : String → ProbeOut,
      (∀ pay ∈ BASIC_PAYLOADS, sqliAttemptFlagged baseText
        (env₂ (sqliTarget parsed qs p pay)) = false) →
      basicDiffParam env₂ parsed qs baseText p BASIC_PAYLOADS =
        ([], BASIC_PAYLOADS.map (sqliTarget parsed qs p))) := by
  have hflagB : sqliFlag baseText st t = true := by
    rcases hflag with h | h
    · simp [sqliFlag, h]
    · simp [sqliFlag, h]
  refine ⟨basicDiffParam_first_flag env parsed qs baseText p BASIC_PAYLOADS
      j st t hj hpre henv hflagB, rfl, fun pay => rfl, fun env₂ hno =>
    basicDiffParam_no_flag env₂ parsed qs baseText p BASIC_PAYLOADS hno⟩

/-- Witness for C3, the spec's Scenario 1: baseline `Hello` (5 chars), the
probe for payload `'` returns `Hello'` (6 chars, status 200): the length
difference flags `suspected = True` and the remaining payloads of the
parameter are skipped. -/
theorem C3_basic_diff_first_hit_witness :
    basicDiffParam
      (fun u => if u = "http://h.io/p?id=5%27" then .resp 200 "Hello'"
        else .resp 200 "Hello")
      (urlparse "http://h.io/p?id=5") (parse_qs "id=5") "Hello" "id"
      BASIC_PAYLOADS =
      ([⟨"id", BASIC_PAYLOADS.getD 0 "",
          sqliTarget (urlparse "http://h.io/p?id=5") (parse_qs "id=5") "id"
            (BASIC_PAYLOADS.getD 0 ""), true, 200⟩],
       (BASIC_PAYLOADS.take (0 + 1)).map
         (sqliTarget (urlparse "http://h.io/p?id=5") (parse_qs "id=5") "id")) ∧
    BASIC_PAYLOADS = ["'", "\"", " OR 1=1 -- "] ∧
    (∀ pay, sqliTarget (urlparse "http://h.io/p?id=5") (parse_qs "id=5")
        "id" pay =
      urlunparse ⟨(urlparse "http://h.io/p?id=5").scheme,
        (urlparse "http://h.io/p?id=5").netloc,
        (urlparse "http://h.io/p?id=5").path,
        (urlparse "http://h.io/p?id=5").params,
        urlencode (dictSet ((parse_qs "id=5").map
            (fun kv => (kv.1, kv.2.getD 0 "")))
          "id" (dictGetD ((parse_qs "id=5").map
            (fun kv => (kv.1, kv.2.getD 0 ""))) "id" "" ++ pay)),
        (urlparse "http://h.io/p?id=5").fragment⟩) ∧
    (∀ env₂ : String → ProbeOut,
      (∀ pay ∈ BASIC_PAYLOADS, sqliAttemptFlagged "Hello"
        (env₂ (sqliTarget (urlparse "http://h.io/p?id=5") (parse_qs "id=5")
          "id" pay)) = false) →
      basicDiffParam env₂ (urlparse "http://h.io/p?id=5") (parse_qs "id=5")
        "Hello" "id" BASIC_PAYLOADS =
        ([], BASIC_PAYLOADS.map
          (sqliTarget (urlparse "http://h.io/p?id=5") (parse_qs "id=5") "id"))) :=
  C3_basic_diff_first_hit
    (fun u => if u = "http://h.io/p?id=5%27" then .resp 200 "Hello'"
      else .resp 200 "Hello")
    (urlparse "http://h.io/p?id=5") (parse_qs "id=5") "Hello" "id" 0 200
    "Hello'" (by decide) (fun i hi => absurd hi (Nat.not_lt_zero i))
    (by decide) (Or.inr (by decide))

/-! ### Claim C9 (similarity reflexivity and symmetry)

The counterexample evaluates the embedded `SequenceMatcher` on two short
normalized texts. The amended reflexivity statement is proved for every
string via a diagonal-domination argument on the scan: every chain value is
bounded by a diagonal chain value reached no later in the scan order, so
the best block is always diagonal, and the two widening loops then extend a
diagonal block of `a = b` to the whole string. -/

theorem mem_b2jOf {s : List Char} {c : Char} {j : Nat} :
    j ∈ b2jOf s c ↔
      isPopular s c = false ∧ j < s.length ∧ s.getD j ' ' = c := by
  unfold b2jOf positionsOf
  by_cases hp : isPopular s c
  · simp [hp]
  · simp [hp, List.mem_filter, List.mem_range]

theorem chainFun_eq (s : List Char) (i j : Nat) :
    chainFun s i j =
      if j ∈ b2jOf s (s.getD i ' ') then chainPrev (prevChain s i) j + 1
      else 0 := by
  cases i with
  | zero =>
    by_cases h0 : j = 0 <;> simp [chainFun, prevChain, chainPrev, h0]
  | succ i =>
    simp [chainFun, prevChain, chainPrev]

theorem chainFun_le_succ (s : List Char) : ∀ i j, chainFun s i j ≤ i + 1 := by
  intro i
  induction i with
  | zero =>
    intro j
    unfold chainFun
    split <;> omega
  | succ i ih =>
    intro j
    unfold chainFun
    split
    · by_cases h0 : j = 0
      · simp [h0]
      · have := ih (j - 1)
        simp [h0]
        omega
    · omega

theorem chainFun_le_dv (s : List Char) :
    ∀ i, i < s.length → ∀ j, chainFun s i j ≤ dvOf s (min i j) := by
  intro i
  induction i with
  | zero =>
    intro _hi j
    by_cases hm : j ∈ b2jOf s (s.getD 0 ' ')
    · obtain ⟨hpop, hj, hcj⟩ := mem_b2jOf.mp hm
      have h0 : (0 : Nat) ∈ b2jOf s (s.getD 0 ' ') :=
        mem_b2jOf.mpr ⟨hpop, by omega, rfl⟩
      have hval : chainFun s 0 j = 1 := by
        simp only [chainFun]
        rw [if_pos hm]
      have hdv : dvOf s (min 0 j) = 1 := by
        rw [Nat.min_eq_left (Nat.zero_le j)]
        show chainFun s 0 0 = 1
        simp only [chainFun]
        rw [if_pos h0]
      omega
    · show chainFun s 0 j ≤ _
      simp only [chainFun]
      rw [if_neg hm]
      exact Nat.zero_le _
  | succ i ih =>
    intro hi j
    by_cases hm : j ∈ b2jOf s (s.getD (i + 1) ' ')
    · obtain ⟨hpop, hj, hcj⟩ := mem_b2jOf.mp hm
      rcases Nat.eq_zero_or_pos j with hj0 | hjpos
      · subst hj0
        have hch : s.getD 0 ' ' = s.getD (i + 1) ' ' := hcj
        have h0mem : (0 : Nat) ∈ b2jOf s (s.getD 0 ' ') := by
          refine mem_b2jOf.mpr ⟨?_, by omega, rfl⟩
          rw [hch]
          exact hpop
        have hval : chainFun s (i + 1) 0 = 1 := by
          simp only [chainFun]
          rw [if_pos hm]
          rfl
        have hdv : dvOf s (min (i + 1) 0) = 1 := by
          rw [Nat.min_eq_right (Nat.zero_le (i + 1))]
          show chainFun s 0 0 = 1
          simp only [chainFun]
          rw [if_pos h0mem]
        omega
      · -- j ≥ 1: chain extends the (i, j-1) chain by one; the diagonal at
        -- min (i+1) j extends the diagonal at min i (j-1) by one.
        have hstep : chainFun s (i + 1) j = chainFun s i (j - 1) + 1 := by
          have hne : j ≠ 0 := by omega
          simp only [chainFun]
          rw [if_pos hm, if_neg hne]
        have hmin1 : min (i + 1) j = min i (j - 1) + 1 := by omega
        have hm1lt : min i (j - 1) + 1 < s.length := by
          have : min (i + 1) j ≤ j := Nat.min_le_right _ _
          omega
        have hm1mem : (min i (j - 1) + 1) ∈
            b2jOf s (s.getD (min i (j - 1) + 1) ' ') := by
          refine mem_b2jOf.mpr ⟨?_, hm1lt, rfl⟩
          rcases Nat.le_total (i + 1) j with hle | hle
          · have : min i (j - 1) + 1 = i + 1 := by omega
            rw [this]
            exact hpop
          · have : min i (j - 1) + 1 = j := by omega
            rw [this, hcj]
            exact hpop
        have hdstep : dvOf s (min i (j - 1) + 1) =
            dvOf s (min i (j - 1)) + 1 := by
          have hne : min i (j - 1) + 1 ≠ 0 := Nat.succ_ne_zero _
          show chainFun s (min i (j - 1) + 1) (min i (j - 1) + 1) =
            chainFun s (min i (j - 1)) (min i (j - 1)) + 1
          simp only [chainFun]
          rw [if_pos hm1mem, if_neg hne, Nat.add_sub_cancel]
        have hih := ih (by omega) (j - 1)
        rw [hstep, hmin1, hdstep]
        exact Nat.succ_le_succ hih
    · rw [chainFun_eq, if_neg hm]
      exact Nat.zero_le _

theorem dvOf_le_dvMax (s : List Char) : ∀ i r, r < i → dvOf s r ≤ dvMax s i := by
  intro i
  induction i with
  | zero => intro r hr; exact absurd hr (Nat.not_lt_zero r)
  | succ i ih =>
    intro r hr
    rcases Nat.lt_succ_iff_lt_or_eq.mp hr with h | h
    · exact le_trans (ih r h) (le_max_left _ _)
    · subst h; exact le_max_right _ _

theorem flmRow_snd (i n : Nat) (old : Nat → Nat) :
    ∀ (js : List Nat) (acc : FlmAcc) (new : Nat → Nat),
      (∀ j ∈ js, j < n) → ∀ j,
      (flmRow i 0 n old js acc new).2 j =
        if j ∈ js then chainPrev old j + 1 else new j := by
  intro js
  induction js with
  | nil => intro acc new _ j; simp [flmRow]
  | cons j0 js ih =>
    intro acc new hbound j
    have hj0 : j0 < n := hbound j0 (List.mem_cons_self j0 js)
    have hnotlt : ¬ j0 < 0 := Nat.not_lt_zero j0
    have hnotge : ¬ n ≤ j0 := Nat.not_le.mpr hj0
    rw [flmRow, if_neg hnotlt, if_neg hnotge]
    rw [ih _ _ (fun x hx => hbound x (List.mem_cons_of_mem j0 hx)) j]
    by_cases hjs : j ∈ js
    · simp [hjs]
    · by_cases hjj : j = j0
      · subst hjj
        simp [hjs, j2lenSet]
      · simp [hjs, hjj, j2lenSet]

theorem flmRow_fst_no_update (i n : Nat) (old : Nat → Nat) :
    ∀ (js : List Nat) (acc : FlmAcc) (new : Nat → Nat),
      (∀ j ∈ js, j < n) →
      (∀ j ∈ js, chainPrev old j + 1 ≤ acc.bestsize) →
      (flmRow i 0 n old js acc new).1 = acc := by
  intro js
  induction js with
  | nil => intro acc new _ _; rfl
  | cons j0 js ih =>
    intro acc new hbound hle
    have hj0 : j0 < n := hbound j0 (List.mem_cons_self j0 js)
    have h0 : chainPrev old j0 + 1 ≤ acc.bestsize :=
      hle j0 (List.mem_cons_self j0 js)
    rw [flmRow, if_neg (Nat.not_lt_zero j0), if_neg (Nat.not_le.mpr hj0)]
    have hnoup : ¬ acc.bestsize < chainPrev old j0 + 1 := Nat.not_lt.mpr h0
    simp only [if_neg hnoup]
    exact ih _ _ (fun x hx => hbound x (List.mem_cons_of_mem j0 hx))
      (fun x hx => hle x (List.mem_cons_of_mem j0 hx))

theorem flmRow_append (i n : Nat) (old : Nat → Nat) :
    ∀ (l₁ l₂ : List Nat) (acc : FlmAcc) (new : Nat → Nat),
      (∀ j ∈ l₁, j < n) →
      flmRow i 0 n old (l₁ ++ l₂) acc new =
        flmRow i 0 n old l₂ (flmRow i 0 n old l₁ acc new).1
          (flmRow i 0 n old l₁ acc new).2 := by
  intro l₁
  induction l₁ with
  | nil => intro l₂ acc new _; rfl
  | cons j0 js ih =>
    intro l₂ acc new hbound
    have hj0 : j0 < n := hbound j0 (List.mem_cons_self j0 js)
    rw [List.cons_append, flmRow, if_neg (Nat.not_lt_zero j0),
      if_neg (Nat.not_le.mpr hj0), flmRow, if_neg (Nat.not_lt_zero j0),
      if_neg (Nat.not_le.mpr hj0)]
    exact ih l₂ _ _ (fun x hx => hbound x (List.mem_cons_of_mem j0 hx))

theorem positionsOf_split (s : List Char) (c : Char) (i : Nat)
    (hi : i < s.length) (hc : s.getD i ' ' = c) :
    positionsOf s c =
      ((List.range i).filter (fun j => s.getD j ' ' = c)) ++
        i :: ((List.range' (i + 1) (s.length - (i + 1))).filter
          (fun j => s.getD j ' ' = c)) := by
  unfold positionsOf
  have hsplit : List.range s.length =
      List.range' 0 i ++ List.range' i (s.length - i) := by
    rw [List.range_eq_range']
    have : s.length = i + (s.length - i) := by omega
    rw [this, Nat.add_comm i (s.length - i)]
    have happ := (List.range'_append 0 i (s.length - i) 1).symm
    simpa [Nat.one_mul] using happ
  have hrest : List.range' i (s.length - i) =
      i :: List.range' (i + 1) (s.length - (i + 1)) := by
    have : s.length - i = (s.length - (i + 1)) + 1 := by omega
    rw [this]
    rfl
  rw [hsplit, hrest, List.filter_append, List.filter_cons]
  have : (decide (s.getD i ' ' = c)) = true := decide_eq_true hc
  simp only [this, if_true, List.range_eq_range']

theorem flmRow_diag (s : List Char) (i d : Nat) (hi : i < s.length)
    (new : Nat → Nat) :
    (flmRow i 0 s.length (prevChain s i) (b2jOf s (s.getD i ' '))
      ⟨d, d, dvMax s i⟩ new).1 =
      if dvMax s i < dvOf s i
      then ⟨i + 1 - dvOf s i, i + 1 - dvOf s i, dvOf s i⟩
      else ⟨d, d, dvMax s i⟩ := by
  by_cases hpop : isPopular s (s.getD i ' ') = true
  · have hempty : b2jOf s (s.getD i ' ') = [] := by
      unfold b2jOf
      rw [if_pos hpop]
    have hdv : dvOf s i = 0 := by
      rw [dvOf, chainFun_eq, hempty]
      simp
    rw [hempty, hdv]
    simp [flmRow]
  · simp only [Bool.not_eq_true] at hpop
    have hmem_i : i ∈ b2jOf s (s.getD i ' ') := mem_b2jOf.mpr ⟨hpop, hi, rfl⟩
    have hb2j : b2jOf s (s.getD i ' ') = positionsOf s (s.getD i ' ') := by
      unfold b2jOf
      rw [if_neg (by rw [hpop]; exact Bool.false_ne_true)]
    have hsplit := positionsOf_split s (s.getD i ' ') i hi rfl
    set L1 := (List.range i).filter (fun j => s.getD j ' ' = s.getD i ' ')
      with hL1
    set L2 := (List.range' (i + 1) (s.length - (i + 1))).filter
      (fun j => s.getD j ' ' = s.getD i ' ') with hL2
    have hkval : ∀ j, j ∈ b2jOf s (s.getD i ' ') →
        chainPrev (prevChain s i) j + 1 = chainFun s i j := by
      intro j hj
      rw [chainFun_eq, if_pos hj]
    have hboundL1 : ∀ j ∈ L1, j < s.length := by
      intro j hj
      have := List.mem_range.mp (List.mem_filter.mp hj).1
      omega
    have hltL1 : ∀ j ∈ L1, j < i := by
      intro j hj
      exact List.mem_range.mp (List.mem_filter.mp hj).1
    have hmemL1 : ∀ j ∈ L1, j ∈ b2jOf s (s.getD i ' ') := by
      intro j hj
      obtain ⟨hr, hcq⟩ := List.mem_filter.mp hj
      exact mem_b2jOf.mpr ⟨hpop, hboundL1 j hj, by simpa using hcq⟩
    have hboundL2 : ∀ j ∈ L2, j < s.length := by
      intro j hj
      have := List.mem_range'_1.mp (List.mem_filter.mp hj).1
      omega
    have hgtL2 : ∀ j ∈ L2, i < j := by
      intro j hj
      have := List.mem_range'_1.mp (List.mem_filter.mp hj).1
      omega
    have hmemL2 : ∀ j ∈ L2, j ∈ b2jOf s (s.getD i ' ') := by
      intro j hj
      obtain ⟨hr, hcq⟩ := List.mem_filter.mp hj
      exact mem_b2jOf.mpr ⟨hpop, hboundL2 j hj, by simpa using hcq⟩
    rw [hb2j, hsplit]
    rw [flmRow_append i s.length (prevChain s i) L1 (i :: L2) _ _ hboundL1]
    have hfst1 : (flmRow i 0 s.length (prevChain s i) L1
        ⟨d, d, dvMax s i⟩ new).1 = ⟨d, d, dvMax s i⟩ := by
      refine flmRow_fst_no_update i s.length (prevChain s i) L1 _ _ hboundL1 ?_
      intro j hj
      rw [hkval j (hmemL1 j hj)]
      have h1 := chainFun_le_dv s i hi j
      rw [Nat.min_eq_right (le_of_lt (hltL1 j hj))] at h1
      exact le_trans h1 (dvOf_le_dvMax s i j (hltL1 j hj))
    rw [hfst1]
    rw [flmRow, if_neg (Nat.not_lt_zero i), if_neg (Nat.not_le.mpr hi)]
    have hki : chainPrev (prevChain s i) i + 1 = dvOf s i := hkval i hmem_i
    simp only [hki]
    by_cases hup : dvMax s i < dvOf s i
    · rw [if_pos hup]
      refine flmRow_fst_no_update i s.length (prevChain s i) L2 _ _ hboundL2 ?_
      intro j hj
      rw [hkval j (hmemL2 j hj)]
      have h1 := chainFun_le_dv s i hi j
      rw [Nat.min_eq_left (le_of_lt (hgtL2 j hj))] at h1
      exact h1
    · rw [if_neg hup]
      refine flmRow_fst_no_update i s.length (prevChain s i) L2 _ _ hboundL2 ?_
      intro j hj
      rw [hkval j (hmemL2 j hj)]
      have h1 := chainFun_le_dv s i hi j
      rw [Nat.min_eq_left (le_of_lt (hgtL2 j hj))] at h1
      exact le_trans h1 (Nat.not_lt.mp hup)

theorem flmRows_diag (s : List Char) :
    ∀ (m i d : Nat), i + m = s.length → d + dvMax s i ≤ s.length →
      ∃ e, flmRows s (b2jOf s) 0 s.length (List.range' i m)
        ⟨d, d, dvMax s i⟩ (prevChain s i) = ⟨e, e, dvMax s s.length⟩ ∧
        e + dvMax s s.length ≤ s.length := by
  intro m
  induction m with
  | zero =>
    intro i d hin hd
    have hieq : i = s.length := by omega
    subst hieq
    exact ⟨d, rfl, hd⟩
  | succ m ih =>
    intro i d hin hd
    have hi : i < s.length := by omega
    have hcons : List.range' i (m + 1) = i :: List.range' (i + 1) m := rfl
    have hunfold : flmRows s (b2jOf s) 0 s.length (i :: List.range' (i + 1) m)
        ⟨d, d, dvMax s i⟩ (prevChain s i) =
        flmRows s (b2jOf s) 0 s.length (List.range' (i + 1) m)
          (flmRow i 0 s.length (prevChain s i) (b2jOf s (s.getD i ' '))
            ⟨d, d, dvMax s i⟩ (fun _ => 0)).1
          (flmRow i 0 s.length (prevChain s i) (b2jOf s (s.getD i ' '))
            ⟨d, d, dvMax s i⟩ (fun _ => 0)).2 := rfl
    have hsnd : (flmRow i 0 s.length (prevChain s i)
        (b2jOf s (s.getD i ' ')) ⟨d, d, dvMax s i⟩ (fun _ => 0)).2 =
        prevChain s (i + 1) := by
      funext j
      rw [flmRow_snd i s.length (prevChain s i) _ _ _
        (fun x hx => (mem_b2jOf.mp hx).2.1) j]
      show _ = chainFun s i j
      rw [chainFun_eq s i j]
    have hfst := flmRow_diag s i d hi (fun _ => 0)
    rw [hcons, hunfold, hfst, hsnd]
    by_cases hup : dvMax s i < dvOf s i
    · rw [if_pos hup]
      have hmax : dvMax s (i + 1) = dvOf s i := by
        show max (dvMax s i) (dvOf s i) = dvOf s i
        exact max_eq_right (le_of_lt hup)
      have hdle : dvOf s i ≤ i + 1 := chainFun_le_succ s i i
      have hd1 : (i + 1 - dvOf s i) + dvMax s (i + 1) ≤ s.length := by
        rw [hmax]
        omega
      have hih := ih (i + 1) (i + 1 - dvOf s i) (by omega) hd1
      rw [hmax] at hih
      exact hih
    · rw [if_neg hup]
      have hmax : dvMax s (i + 1) = dvMax s i :=
        max_eq_left (Nat.not_lt.mp hup)
      have hih := ih (i + 1) d (by omega) (by rw [hmax]; exact hd)
      rw [hmax] at hih
      exact hih

theorem extLeft_diag (s : List Char) :
    ∀ (bi bs : Nat), extLeft s s (fun _ => false) 0 0 bi bi bi bs =
      (0, 0, bs + bi) := by
  intro bi
  induction bi with
  | zero => intro bs; rfl
  | succ bi ih =>
    intro bs
    have hcond : (decide (0 < bi + 1) && decide (0 < bi + 1) &&
        !(fun _ : Char => false) (s.getD (bi + 1 - 1) ' ') &&
        decide (s.getD (bi + 1 - 1) ' ' = s.getD (bi + 1 - 1) ' ')) = true := by
      simp
    rw [extLeft, if_pos hcond]
    rw [Nat.add_sub_cancel, ih (bs + 1)]
    have : bs + 1 + bi = bs + (bi + 1) := by omega
    rw [this]

theorem extRight_diag (s : List Char) :
    ∀ (fuel bs : Nat), fuel + bs = s.length →
      extRight s s (fun _ => false) s.length s.length 0 0 fuel bs =
        s.length := by
  intro fuel
  induction fuel with
  | zero =>
    intro bs h
    simpa [extRight] using h
  | succ fuel ih =>
    intro bs h
    have hlt : bs < s.length := by omega
    have hcond : (decide (0 + bs < s.length) && decide (0 + bs < s.length) &&
        !(fun _ : Char => false) (s.getD (0 + bs) ' ') &&
        decide (s.getD (0 + bs) ' ' = s.getD (0 + bs) ' ')) = true := by
      simp [hlt]
    rw [extRight, if_pos hcond]
    exact ih (bs + 1) (by omega)

theorem extLeftJunk_false (a b : List Char) (alo blo : Nat) :
    ∀ (fuel bi bj bs : Nat),
      extLeftJunk a b (fun _ => false) alo blo fuel bi bj bs = (bi, bj, bs) := by
  intro fuel
  cases fuel with
  | zero => intro bi bj bs; rfl
  | succ fuel => intro bi bj bs; simp [extLeftJunk]

theorem extRightJunk_false (a b : List Char) (ahi bhi bi bj : Nat) :
    ∀ (fuel bs : Nat),
      extRightJunk a b (fun _ => false) ahi bhi bi bj fuel bs = bs := by
  intro fuel
  cases fuel with
  | zero => intro bs; rfl
  | succ fuel => intro bs; simp [extRightJunk]

theorem extLeft_stop_alo (a b : List Char) (bjunk : Char → Bool)
    (alo blo : Nat) :
    ∀ (fuel bj bs : Nat),
      extLeft a b bjunk alo blo fuel alo bj bs = (alo, bj, bs) := by
  intro fuel
  cases fuel with
  | zero => intro bj bs; rfl
  | succ fuel => intro bj bs; simp [extLeft]

theorem findLongestMatch_self (s : List Char) :
    findLongestMatch s s (b2jOf s) (fun _ => false) 0 s.length 0 s.length =
      (0, 0, s.length) := by
  obtain ⟨e, hrows, hbound⟩ := flmRows_diag s s.length 0 0
    (Nat.zero_add s.length) (by simp [dvMax])
  unfold findLongestMatch
  rw [Nat.sub_zero]
  have hrows' : flmRows s (b2jOf s) 0 s.length (List.range' 0 s.length)
      ⟨0, 0, 0⟩ (fun _ => 0) = ⟨e, e, dvMax s s.length⟩ := by
    have h1 : (⟨0, 0, 0⟩ : FlmAcc) = ⟨0, 0, dvMax s 0⟩ := rfl
    have h2 : (fun _ : Nat => (0 : Nat)) = prevChain s 0 := rfl
    rw [h1, h2]
    exact hrows
  rw [hrows']
  simp only
  rw [extLeft_diag s e (dvMax s s.length)]
  simp only
  rw [extRight_diag s (s.length - (0 + (dvMax s s.length + e)))
      (dvMax s s.length + e) (by omega)]
  rw [extLeftJunk_false, extRightJunk_false]

theorem findLongestMatch_self_empty (s : List Char) (lo blo bhi : Nat) :
    findLongestMatch s s (b2jOf s) (fun _ => false) lo lo blo bhi =
      (lo, blo, 0) := by
  unfold findLongestMatch
  rw [Nat.sub_self]
  have hrows : flmRows s (b2jOf s) blo bhi (List.range' lo 0)
      ⟨lo, blo, 0⟩ (fun _ => 0) = ⟨lo, blo, 0⟩ := rfl
  rw [hrows]
  simp only
  rw [extLeft_stop_alo s s (fun _ => false) lo blo lo blo 0]
  simp only
  have hfuel : lo - (lo + 0) = 0 := by omega
  rw [hfuel]
  have hr : extRight s s (fun _ => false) lo bhi lo blo 0 0 = 0 := rfl
  rw [hr, extLeftJunk_false, extRightJunk_false]

theorem matchingTotalGo_self_empty (s : List Char) (lo blo bhi : Nat) :
    ∀ fuel, matchingTotalGo s s (b2jOf s) (fun _ => false) fuel
      lo lo blo bhi = 0 := by
  intro fuel
  cases fuel with
  | zero => rfl
  | succ fuel =>
    rw [matchingTotalGo, findLongestMatch_self_empty]
    rfl

theorem matchingTotal_self (s : List Char) : matchingTotal s s = s.length := by
  unfold matchingTotal
  rcases Nat.eq_zero_or_pos s.length with hz | hpos
  · rw [hz]
    rfl
  · have hfuel : s.length + s.length = (s.length + s.length - 1) + 1 := by omega
    rw [hfuel, matchingTotalGo, findLongestMatch_self]
    have hne : s.length ≠ 0 := by omega
    simp only [Nat.zero_add]
    rw [if_neg hne]
    rw [matchingTotalGo_self_empty, matchingTotalGo_self_empty]
    omega

/-- Claim C9, counterexample: the differential similarity of the embedded
`SequenceMatcher` is not symmetric. On the normalized texts `aba` and
`babba` the matcher keeps blocks of total size 3 one way (the scan anchors
at `ab`, then `a`) but only 2 the other way (the tie-breaking of
`find_longest_match` anchors differently), giving 3/4 against 1/2. This
refutes `similarity(A,B) == similarity(B,A)`. -/
theorem C9_symmetry_counterexample :
    normalize_html "aba" = "aba" ∧ normalize_html "babba" = "babba" ∧
    similarity "aba" "babba" = 3 / 4 ∧ similarity "babba" "aba" = 1 / 2 ∧
    similarity "aba" "babba" ≠ similarity "babba" "aba" := by
  have h1 : similarity "aba" "babba" = 3 / 4 := by
    show ratioQ "aba".data "babba".data = 3 / 4
    have ht : matchingTotal "aba".data "babba".data = 3 := by decide
    have hl : "aba".data.length + "babba".data.length = 8 := by decide
    unfold ratioQ
    rw [ht, hl]
    norm_num
  have h2 : similarity "babba" "aba" = 1 / 2 := by
    show ratioQ "babba".data "aba".data = 1 / 2
    have ht : matchingTotal "babba".data "aba".data = 2 := by decide
    have hl : "babba".data.length + "aba".data.length = 8 := by decide
    unfold ratioQ
    rw [ht, hl]
    norm_num
  refine ⟨by decide, by decide, h1, h2, ?_⟩
  rw [h1, h2]
  norm_num

/-- Claim C9, amended: the differential similarity is reflexive —
`similarity(A, A) = 1.0` for every text A (the scan finds a diagonal block
which the widening loops extend over the whole string, junk or not) — but
it is not symmetric in general. -/
theorem C9_similarity_reflexive_amended (A : String) : similarity A A = 1 := by
  show ratioQ A.data A.data = 1
  unfold ratioQ
  rw [matchingTotal_self]
  by_cases h : A.data.length + A.data.length = 0
  · rw [if_pos h]
  · rw [if_neg h]
    have hn : A.data.length ≠ 0 := by omega
    have hcast : ((A.data.length + A.data.length : Nat) : ℚ) =
        2 * (A.data.length : ℚ) := by
      push_cast
      ring
    rw [hcast]
    have hne : (2 : ℚ) * (A.data.length : ℚ) ≠ 0 :=
      mul_ne_zero two_ne_zero (Nat.cast_ne_zero.mpr hn)
    rw [div_self hne]

end WebScanner
